import Mathlib

/-!
# Rotor-rig controller: control loop, ring-filter mean and quadrature decoder

A shallow embedding of the sampling / decoding / control core of the ENCE464
helicopter-rig firmware (`control_task.c`, `height_task.c`, `potentiometer.c`,
`yaw_task.c`, `yaw_task.h`, `switch_task.c` and the semaphore setup of `main.c`),
followed by theorems about it.

Conventions.
* `int32_t` and `uint32_t` values are integers; every C operation that can
  leave the 32-bit range is followed by an explicit reduction (`wrap_i32`,
  `% 4294967296`), which is what the Cortex-M4 target computes.
* Static and global C variables become fields of a state record or explicit
  arguments.
* Values obtained from hardware or from code outside these files (GPIO pin
  levels, timer readings, polled buttons, the entries returned by
  `readCircBuf`) are inputs of the model.
* `float` and `double` products are computed exactly on integers: the constant
  is a numerator over a power of two and the product is rounded to 24 or 53
  significant bits, to nearest with ties to even.
-/

namespace ENCE464

/-! ## Machine integers -/

/-- The `int32_t` value with the same low 32 bits as `x` (two's complement). -/
def wrap_i32 (x : Int) : Int :=
  (x + 2147483648) % 4294967296 - 2147483648

/-- Conversion of an `int32_t` to `uint32_t`. -/
def i32_to_u32 (x : Int) : Nat :=
  (x % 4294967296).toNat

/-- Conversion of a `uint32_t` to `int32_t`. -/
def u32_to_i32 (n : Nat) : Int :=
  wrap_i32 (n : Int)

/-- The C library `abs` on `int32_t` (negation wraps at `INT32_MIN`). -/
def c_abs (x : Int) : Int :=
  if x < 0 then wrap_i32 (-x) else x

/-! ## control_task.c : duty clamping -/

/-- `check_valid_pwm`: the value left in `*height_pwm`. -/
def check_valid_pwm (height_pwm : Int) : Int :=
  if height_pwm < 0 then 0
  else if height_pwm > 99 then 99
  else height_pwm

/-- The value of `height_pwm` just before `check_valid_pwm` in `control_task`:
the base offset followed by the three `+=` of the proportional, derivative and
integral terms, each an `int32_t` addition. -/
def height_pwm_raw (offset p d i : Int) : Int :=
  wrap_i32 (wrap_i32 (wrap_i32 (offset + p) + d) + i)

/-- The value sent on `Q_mainDuty` by one control cycle. -/
def height_pwm_published (offset p d i : Int) : Int :=
  check_valid_pwm (height_pwm_raw offset p d i)

/-- The value of `yaw_pwm` just before `check_valid_pwm` in `control_task`. -/
def yaw_pwm_raw (offset p d i : Int) : Int :=
  wrap_i32 (wrap_i32 (wrap_i32 (offset + p) + d) + i)

/-- The tail of the yaw branch of `control_task`: `check_valid_pwm(&yaw_pwm)`
followed by `if (yaw_pwm > 85) yaw_pwm = 85;`. -/
def yaw_pwm_limit (yaw_pwm : Int) : Int :=
  let clamped := check_valid_pwm yaw_pwm
  if clamped > 85 then 85 else clamped

/-- The value sent on `Q_tailDuty` by one control cycle. -/
def yaw_pwm_published (offset p d i : Int) : Int :=
  yaw_pwm_limit (yaw_pwm_raw offset p d i)

/-! ## control_task.c : yaw error -/

/-- The yaw target table `yaws_array[24]`. -/
def yaws_array : List Int :=
  [0, 15, 30, 45, 60, 75, 90, 105, 120, 135, 150, 165,
   179, -165, -150, -135, -120, -105, -90, -75, -60, -45, -30, -15]

/-- The direct candidate `y_error1 = yaws_array[curr_Targ_yaw] - curr_Meas_yaw`,
with `targ` the table entry. -/
def y_error1 (targ curr_Meas_yaw : Int) : Int :=
  wrap_i32 (targ - curr_Meas_yaw)

/-- The wraparound candidate
`y_error2 = yaws_array[curr_Targ_yaw] - (curr_Meas_yaw + 360)`. -/
def y_error2 (targ curr_Meas_yaw : Int) : Int :=
  wrap_i32 (targ - wrap_i32 (curr_Meas_yaw + 360))

/-- The candidate kept by `if (abs(y_error1) < abs(y_error2))`, before the
multiplication by `-1`. -/
def y_error_chosen (targ curr_Meas_yaw : Int) : Int :=
  if c_abs (y_error1 targ curr_Meas_yaw) < c_abs (y_error2 targ curr_Meas_yaw) then
    y_error1 targ curr_Meas_yaw
  else
    y_error2 targ curr_Meas_yaw

/-- The yaw error handed to the yaw PID terms: `y_error = y_error * -1`. -/
def y_error (targ curr_Meas_yaw : Int) : Int :=
  wrap_i32 (y_error_chosen targ curr_Meas_yaw * -1)

/-- The chosen candidate of a control cycle whose target yaw index is
`curr_Targ_yaw`; `none` when the index is outside the table. -/
def control_y_error_chosen (curr_Targ_yaw : Nat) (curr_Meas_yaw : Int) : Option Int :=
  match yaws_array[curr_Targ_yaw]? with
  | none => none
  | some targ => some (y_error_chosen targ curr_Meas_yaw)

/-- The yaw error of a control cycle whose target yaw index is `curr_Targ_yaw`;
`none` when the index is outside the table. -/
def control_y_error (curr_Targ_yaw : Nat) (curr_Meas_yaw : Int) : Option Int :=
  match yaws_array[curr_Targ_yaw]? with
  | none => none
  | some targ => some (y_error targ curr_Meas_yaw)

/-! ## height_task.c, potentiometer.c : ring-filter mean

`readCircBuf` belongs to `circBufT.c`, which is not part of these sources; the
mean functions are modelled over `reads`, where `reads i` is the entry returned
by the `i`-th call of `readCircBuf` inside the summing loop. -/

/-- The `int32_t sum` of `meanAltiduteADC` after `n` iterations of
`sum = sum + readCircBuf(adder)` (an unsigned addition stored back into the
signed variable). -/
def meanAltiduteADC_sum (reads : Nat → Nat) : Nat → Int
  | 0 => 0
  | n + 1 =>
    u32_to_i32 ((i32_to_u32 (meanAltiduteADC_sum reads n) + reads n % 4294967296) % 4294967296)

/-- `meanAltiduteADC` on a buffer with `adder->size = size`: the loop, then
`sum = (2 * sum + adder->size) / 2 / adder->size` with `2 * sum` a signed
product and the rest unsigned; `none` is the division by a zero size. -/
def meanAltiduteADC (size : Nat) (reads : Nat → Nat) : Option Nat :=
  let sum := meanAltiduteADC_sum reads size
  if size = 0 then none
  else
    let twice := wrap_i32 (2 * sum)
    let mean := (i32_to_u32 twice + size) % 4294967296 / 2 / size
    some (i32_to_u32 (u32_to_i32 mean))

/-- The `uint32_t sum` of `readAverageCircBuf` after `n` iterations of
`sum = sum + readCircBuf(buffer)`. -/
def readAverageCircBuf_sum (reads : Nat → Nat) : Nat → Nat
  | 0 => 0
  | n + 1 => (readAverageCircBuf_sum reads n + reads n % 4294967296) % 4294967296

/-- `readAverageCircBuf` of potentiometer.c, where `BUF_SIZE` is 10:
`(2 * sum + BUF_SIZE) / 2 / BUF_SIZE` in unsigned 32-bit arithmetic. -/
def readAverageCircBuf (reads : Nat → Nat) : Nat :=
  let sum := readAverageCircBuf_sum reads 10
  ((2 * sum) % 4294967296 + 10) % 4294967296 / 2 / 10

/-- The exact sum `S` of the first `n` entries returned by the reads. -/
def window_sum (reads : Nat → Nat) (n : Nat) : Nat :=
  ((List.range n).map reads).sum

/-- The window that holds the listed samples in read order. -/
def window_of (samples : List Nat) : Nat → Nat :=
  fun i => samples.getD i 0

/-! ## yaw_task.h, yaw_task.c : quadrature decoder -/

/-- The lookup table `Dir_List` of yaw_task.h. -/
def Dir_List : List Int :=
  [0, -1, 1, 0,
   1, 0, 0, -1,
   -1, 0, 0, 1,
   0, 1, -1, 0]

/-- `enum Yaw_Dir`: `CLOCKWISE = -1`. -/
def CLOCKWISE : Int := -1

/-- `enum Yaw_Dir`: `STILL` follows `CLOCKWISE`, so it is 0. -/
def STILL : Int := 0

/-- `enum Yaw_Dir`: `ANTICLOCKWISE` follows `STILL`, so it is 1. -/
def ANTICLOCKWISE : Int := 1

/-- `const uint32_t yaw_ticks = 448`. -/
def yaw_ticks : Nat := 448

/-- The electrical levels of the two encoder inputs when they are sampled. -/
structure PinLevels where
  phaseA : Bool
  phaseB : Bool
  deriving DecidableEq, Repr

/-- `GPIOPinRead(PHASE_PORT, PHASE_A)`: `PHASE_A` is `GPIO_PIN_0`, so the
driver returns the level in bit 0. -/
def GPIOPinRead_PHASE_A (pins : PinLevels) : Nat :=
  if pins.phaseA then 1 else 0

/-- `GPIOPinRead(PHASE_PORT, PHASE_B)`: `PHASE_B` is `GPIO_PIN_1`, so the
driver returns the level in bit 1. -/
def GPIOPinRead_PHASE_B (pins : PinLevels) : Nat :=
  if pins.phaseB then 2 else 0

/-- The file-scope variables of yaw_task.c. -/
structure YawState where
  prev_State_A : Bool
  prev_State_B : Bool
  current_State_A : Bool
  current_State_B : Bool
  orientation : Int
  yaw_counter : Int
  yaw_degree : Int
  deriving DecidableEq, Repr

/-- The initial values of the file-scope variables. -/
def yaw_init : YawState :=
  { prev_State_A := false, prev_State_B := false,
    current_State_A := false, current_State_B := false,
    orientation := 0, yaw_counter := 0, yaw_degree := 0 }

/-- The table index formed by `updateDirection`:
`(prev_State_B << 3) + (prev_State_A << 2) + (current_State_B << 1) + current_State_A`. -/
def direction_index (prevB prevA curB curA : Bool) : Nat :=
  (prevB.toNat <<< 3) + (prevA.toNat <<< 2) + (curB.toNat <<< 1) + curA.toNat

/-- `updateDirection`: sample both pins, look the direction up, remember the
sampled pair as the previous pair. -/
def updateDirection (s : YawState) (pins : PinLevels) : YawState :=
  let current_State_A := decide (GPIOPinRead_PHASE_A pins ≠ 0)
  let current_State_B := decide (GPIOPinRead_PHASE_B pins >>> 1 ≠ 0)
  let index := direction_index s.prev_State_B s.prev_State_A current_State_B current_State_A
  { s with
    current_State_A := current_State_A
    current_State_B := current_State_B
    orientation := Dir_List.getD index 0
    prev_State_A := current_State_A
    prev_State_B := current_State_B }

/-- `counterYaw`: the `switch (orientation)`. -/
def counterYaw (s : YawState) : YawState :=
  if s.orientation = ANTICLOCKWISE then
    { s with yaw_counter := wrap_i32 (s.yaw_counter - 1) }
  else if s.orientation = CLOCKWISE then
    { s with yaw_counter := wrap_i32 (s.yaw_counter + 1) }
  else
    s

/-- `ISR_GET_DIRECTION`: `updateDirection()` then `counterYaw()`; clearing the
interrupt flags does not touch the decoder variables. -/
def ISR_GET_DIRECTION (s : YawState) (pins : PinLevels) : YawState :=
  counterYaw (updateDirection s pins)

/-- The number of binary digits of `n`, counted by at most `fuel` halvings. -/
def bit_length_aux : Nat → Nat → Nat
  | 0, _ => 0
  | fuel + 1, n => if n = 0 then 0 else bit_length_aux fuel (n / 2) + 1

/-- The number of binary digits of `n` (`n` halvings always reach zero). -/
def bit_length (n : Nat) : Nat :=
  bit_length_aux n n

/-- Rounding of a natural number to the 24 significant bits of a binary32
`float`, to nearest with ties to even. -/
def f32_round (n : Nat) : Nat :=
  let shift := bit_length n - 24
  let q := n / 2 ^ shift
  let r := n % 2 ^ shift
  if 2 ^ shift < 2 * r ∨ (2 * r = 2 ^ shift ∧ q % 2 = 1) then (q + 1) * 2 ^ shift
  else q * 2 ^ shift

/-- `const float yaw_angle_ratio = 360.0 / 448.0`: the binary32 number nearest
to 45/56 is `13481691 / 2^24`; this is its numerator. -/
def yaw_angle_ratio_scaled : Nat := 13481691

/-- `yaw_counter * yaw_angle_ratio` stored into the `int32_t yaw_degree`: the
counter is converted to `float`, the binary32 product is rounded, and the
conversion to integer drops the fraction. -/
def counter_times_ratio (yaw_counter : Int) : Int :=
  let magnitude := f32_round (f32_round yaw_counter.natAbs * yaw_angle_ratio_scaled) / 16777216
  if yaw_counter < 0 then -(magnitude : Int) else (magnitude : Int)

/-- `convert_to_degree`: `yaw_counter -= yaw_ticks` and `yaw_counter += yaw_ticks`
are unsigned 32-bit operations stored back into the signed counter. -/
def convert_to_degree (s : YawState) : YawState :=
  let yaw_counter :=
    if s.yaw_counter > 224 then
      u32_to_i32 ((i32_to_u32 s.yaw_counter + (4294967296 - yaw_ticks)) % 4294967296)
    else if s.yaw_counter < -223 then
      u32_to_i32 ((i32_to_u32 s.yaw_counter + yaw_ticks) % 4294967296)
    else
      s.yaw_counter
  { s with yaw_counter := yaw_counter, yaw_degree := counter_times_ratio yaw_counter }

/-- `get_current_yaw`. -/
def get_current_yaw (s : YawState) : Int :=
  s.yaw_degree

/-- The decoder after a sequence of edge interrupts, one sampled pin pair per
interrupt. -/
def run_edges (s : YawState) (edges : List PinLevels) : YawState :=
  edges.foldl ISR_GET_DIRECTION s

/-- The decoder after a sequence of `yawTask` periods: in each period the edge
interrupts of the period run, then the task body calls `convert_to_degree`. -/
def run_periods (s : YawState) (periods : List (List PinLevels)) : YawState :=
  periods.foldl (fun st edges => convert_to_degree (run_edges st edges)) s

/-- Four successive samples along the Gray cycle 00, 01, 11, 10, 00 (bits B, A),
starting after a previous pair 00. -/
def clockwise_cycle : List PinLevels :=
  [⟨true, false⟩, ⟨true, true⟩, ⟨false, true⟩, ⟨false, false⟩]

/-- The first `n` samples of an encoder that keeps turning along the Gray
cycle of `clockwise_cycle`. -/
def clockwise_edges (n : Nat) : List PinLevels :=
  (List.range n).map (fun i => clockwise_cycle.getD (i % 4) ⟨false, false⟩)

/-! ## control_task.c : height error, base offset, integral term, calibration -/

/-- The height target table `heights_array[11]`. -/
def heights_array : List Nat :=
  [0, 100, 200, 300, 400, 500, 600, 700, 800, 900, 1000]

/-- `convert_to_height` (the same function in control_task.c and in
display_task.c), on `uint32_t` arguments; the subtraction is unsigned. -/
def convert_to_height (adc_val ground : Nat) : Nat :=
  if adc_val > ground then 0
  else (ground + 4294967296 - adc_val) % 4294967296

/-- The height error of a control cycle,
`int32_t error = heights_array[curr_Targ_height] - convert_to_height(curr_Meas_height, ground_ADC)`:
an unsigned subtraction stored into a signed variable; `none` when the index is
outside the table. -/
def height_error (curr_Targ_height curr_Meas_height ground_ADC : Nat) : Option Int :=
  match heights_array[curr_Targ_height]? with
  | none => none
  | some targ =>
    some (u32_to_i32
      ((targ + 4294967296 - convert_to_height curr_Meas_height ground_ADC) % 4294967296))

/-- The base offset of the height duty: `height_pwm = 50;` then
`if ((curr_Targ_height == 0) && (error < 10)) height_pwm = 0;`. -/
def height_offset (curr_Targ_height : Nat) (error : Int) : Int :=
  if curr_Targ_height = 0 ∧ error < 10 then 0 else 50

/-- The base offset computed by a control cycle from its inputs. -/
def control_height_offset (curr_Targ_height curr_Meas_height ground_ADC : Nat) : Option Int :=
  match height_error curr_Targ_height curr_Meas_height ground_ADC with
  | none => none
  | some error => some (height_offset curr_Targ_height error)

/-- Rounding of a natural number to the 53 significant bits of a binary64
`double`, to nearest with ties to even. -/
def f64_round (n : Nat) : Nat :=
  let shift := bit_length n - 53
  let q := n / 2 ^ shift
  let r := n % 2 ^ shift
  if 2 ^ shift < 2 * r ∨ (2 * r = 2 ^ shift ∧ q % 2 = 1) then (q + 1) * 2 ^ shift
  else q * 2 ^ shift

/-- `#define INTERGRAL_GAIN 0.01e-3`: the binary64 number nearest to 1/100000 is
`5902958103587057 / 2^69`; this is its numerator. -/
def INTERGRAL_GAIN_scaled : Nat := 5902958103587057

/-- `calc_intergral_gain`, with the static `total_intergral` passed in: the
first component is the value left in `total_intergral`, the second the value
returned, `INTERGRAL_GAIN * total_intergral` converted to `int32_t`.
`error * time_step` and the `+=` are unsigned 32-bit operations. -/
def calc_intergral_gain (total_intergral error : Int) (time_step : Nat) : Int × Int :=
  let kept := if c_abs error < 20 then 0 else total_intergral
  let total :=
    u32_to_i32 ((i32_to_u32 kept + (i32_to_u32 error * time_step) % 4294967296) % 4294967296)
  let magnitude : Nat := f64_round (total.natAbs * INTERGRAL_GAIN_scaled) / 2 ^ 69
  (total, if total < 0 then -(magnitude : Int) else (magnitude : Int))

/-- The calibration variables of `control_task`: the flag `first` and the
local `ground_ADC`, which has no initialiser (`none` until it is assigned). -/
structure CalibState where
  first : Bool
  ground_ADC : Option Nat
  deriving DecidableEq, Repr

/-- The calibration variables when `control_task` starts: `int first = 1;`. -/
def calib_init : CalibState :=
  { first := true, ground_ADC := none }

/-- The calibration block of one control cycle:
`if (first) { if (curr_Targ_height > 0) first = 0; else ground_ADC = curr_Meas_height; }`. -/
def calibrate (st : CalibState) (curr_Targ_height curr_Meas_height : Nat) : CalibState :=
  if st.first then
    if curr_Targ_height > 0 then { st with first := false }
    else { st with ground_ADC := some curr_Meas_height }
  else st

/-- The calibration variables after a sequence of control cycles, each given
by its pair `(curr_Targ_height, curr_Meas_height)`. -/
def run_calibrate (st : CalibState) (cycles : List (Nat × Nat)) : CalibState :=
  cycles.foldl (fun acc cycle => calibrate acc cycle.1 cycle.2) st

/-! ## height_task.c : publishing the filtered height -/

/-- The static `count` of `sendMeasHeightToBOTH` and the values handed so far
to `xQueueSend` for each of the two queues. -/
structure SendState where
  count : Int
  g_MeasHeightDisplayQueue : List Nat
  g_MeasHeightControlQueue : List Nat
  deriving DecidableEq, Repr

/-- The state before the first call: `static int count = 0`, nothing sent. -/
def send_init : SendState :=
  { count := 0, g_MeasHeightDisplayQueue := [], g_MeasHeightControlQueue := [] }

/-- `sendMeasHeightToBOTH` with the global `EXT_VAL` passed in (every
`xQueueSend` succeeding; a failed send halts the task for ever). -/
def sendMeasHeightToBOTH (s : SendState) (EXT_VAL : Nat) : SendState :=
  let s1 :=
    if s.count > 3 then
      { s with count := 0, g_MeasHeightDisplayQueue := s.g_MeasHeightDisplayQueue ++ [EXT_VAL] }
    else
      { s with count := wrap_i32 (s.count + 1) }
  { s1 with g_MeasHeightControlQueue := s1.g_MeasHeightControlQueue ++ [EXT_VAL] }

/-- The publishing state after a sequence of Sampler cycles, one filtered
height per cycle. -/
def run_send (s : SendState) (vals : List Nat) : SendState :=
  vals.foldl sendMeasHeightToBOTH s

/-! ## main.c, height_task.c, control_task.c : semaphore handoff

The two binary semaphores are FreeRTOS objects: a take succeeds exactly when
the semaphore is available and leaves it unavailable, a give leaves it
available. The scheduler is modelled by an arbitrary interleaving of the
actions of the two tasks. -/

/-- One recorded run of a task body. -/
inductive HandoffEvent where
  | sampler
  | control
  deriving DecidableEq, Repr

/-- Where a task stands in its `while(1)` loop: at `xSemaphoreTake`, inside the
guarded body, or in the `while(1) {}` that follows a failed `xQueueSend`. -/
inductive TaskPhase where
  | waiting
  | running
  | halted
  deriving DecidableEq, Repr

/-- The two semaphores, the position of the two tasks and the record of the
body runs so far. -/
structure HandoffState where
  g_ADCSemaphore : Bool
  g_ControlSemaphore : Bool
  rigTask : TaskPhase
  control_task : TaskPhase
  events : List HandoffEvent
  deriving DecidableEq, Repr

/-- The state when the scheduler starts: `main` creates both semaphores empty
and gives `g_ADCSemaphore` once. -/
def handoff_init : HandoffState :=
  { g_ADCSemaphore := true, g_ControlSemaphore := false,
    rigTask := .waiting, control_task := .waiting, events := [] }

/-- The atomic actions of the two tasks. -/
inductive HandoffAction where
  | rigTask_take
  | rigTask_give
  | rigTask_halt
  | control_take
  | control_give
  | control_halt
  deriving DecidableEq, Repr

/-- One action. `rigTask_take` is `xSemaphoreTake(g_ADCSemaphore, 1)`: on
success the body starts (recorded), otherwise the loop comes round again.
`rigTask_give` is the end of the body, `xSemaphoreGive(g_ControlSemaphore)`.
`rigTask_halt` is a failed `xQueueSend` inside the body. The three actions of
`control_task` mirror them with the semaphores exchanged. -/
def handoff_step (s : HandoffState) : HandoffAction → HandoffState
  | .rigTask_take =>
    if s.rigTask = .waiting ∧ s.g_ADCSemaphore = true then
      { s with g_ADCSemaphore := false, rigTask := .running,
               events := s.events ++ [.sampler] }
    else s
  | .rigTask_give =>
    if s.rigTask = .running then
      { s with g_ControlSemaphore := true, rigTask := .waiting }
    else s
  | .rigTask_halt =>
    if s.rigTask = .running then { s with rigTask := .halted } else s
  | .control_take =>
    if s.control_task = .waiting ∧ s.g_ControlSemaphore = true then
      { s with g_ControlSemaphore := false, control_task := .running,
               events := s.events ++ [.control] }
    else s
  | .control_give =>
    if s.control_task = .running then
      { s with g_ADCSemaphore := true, control_task := .waiting }
    else s
  | .control_halt =>
    if s.control_task = .running then { s with control_task := .halted } else s

/-- The state after a schedule, a sequence of actions. -/
def handoff_run (s : HandoffState) (schedule : List HandoffAction) : HandoffState :=
  schedule.foldl handoff_step s

/-- The strict ping-pong record of length `n`: sampler, control, sampler, ... -/
def ping_pong (n : Nat) : List HandoffEvent :=
  (List.range n).map (fun i => if i % 2 = 0 then HandoffEvent.sampler else HandoffEvent.control)

/-- The schedule of one undisturbed cycle. -/
def handoff_round : List HandoffAction :=
  [.rigTask_take, .rigTask_give, .control_take, .control_give]

/-- The invariant of the handoff: the record is a strict ping-pong and at most
one of the four places (the two semaphores, the two bodies) holds the token,
its place fixing the parity of the record. -/
def handoff_inv (s : HandoffState) (n : Nat) : Prop :=
  s.events = ping_pong n
  ∧ (s.g_ADCSemaphore = true →
      n % 2 = 0 ∧ s.g_ControlSemaphore = false ∧ s.rigTask ≠ .running
      ∧ s.control_task ≠ .running)
  ∧ (s.g_ControlSemaphore = true →
      n % 2 = 1 ∧ s.rigTask ≠ .running ∧ s.control_task ≠ .running)
  ∧ (s.rigTask = .running → n % 2 = 1 ∧ s.control_task ≠ .running)
  ∧ (s.control_task = .running → n % 2 = 0)

/-! ## control_task.c : timer, proportional and derivative terms, height cycle -/

/-- `#define TIME_PER_TICK 12.5e-6`: the binary64 number nearest to 1/80000 is
`7378697629483821 / 2^69`; this is its numerator. -/
def TIME_PER_TICK_scaled : Nat := 7378697629483821

/-- The elapsed ticks `last_time - current_time`, an unsigned 32-bit
subtraction. -/
def elapsed_ticks (last_time current_time : Nat) : Nat :=
  (last_time + 4294967296 - current_time) % 4294967296

/-- `time_step = time_step * TIME_PER_TICK;` on the `uint32_t time_step`: the
binary64 product is rounded and the conversion back to `uint32_t` drops the
fraction. -/
def scale_time_step (ticks : Nat) : Nat :=
  (f64_round (ticks * TIME_PER_TICK_scaled) / 2 ^ 69) % 4294967296

/-- The timer block of one control cycle, from the static `last_time` and the
reading `current_time = TimerValueGet(...)`: the first component is `time_step`,
the second the value left in `last_time` (reloaded with 1000000000 when the
reading is below 400000000). -/
def control_timer (last_time current_time : Nat) : Nat × Nat :=
  let time_step := scale_time_step (elapsed_ticks last_time current_time)
  let stored := current_time
  (time_step, if stored < 400000000 then 1000000000 else stored)

/-- The static `last_time` after a sequence of control cycles, one timer
reading per cycle; it starts at 1000000000. -/
def run_timer (last_time : Nat) (readings : List Nat) : Nat :=
  readings.foldl (fun acc current_time => (control_timer acc current_time).2) last_time

/-- `#define PROPORTIONAL_GAIN 0.1`: the binary64 number nearest to 1/10 is
`3602879701896397 / 2^55`; this is its numerator. -/
def PROPORTIONAL_GAIN_scaled : Nat := 3602879701896397

/-- `calc_proportional_gain`: `PROPORTIONAL_GAIN * error` is a binary64 product
and the `int32_t` return value drops its fraction. -/
def calc_proportional_gain (error : Int) : Int :=
  let magnitude : Nat := f64_round (error.natAbs * PROPORTIONAL_GAIN_scaled) / 2 ^ 55
  if error < 0 then -(magnitude : Int) else (magnitude : Int)

/-- `#define DERIVATIVE_GAIN 0`. -/
def DERIVATIVE_GAIN : Int := 0

/-- `calc_derivative_gain`, with the static `last_error` passed in:
`(last_error - error) / time_step` divides the signed difference, converted to
unsigned, by the unsigned `time_step`; `none` is the division by a zero time
step. Otherwise the first component is the value left in `last_error` and the
second the value returned, `DERIVATIVE_GAIN * derivative`. -/
def calc_derivative_gain (last_error error : Int) (time_step : Nat) : Option (Int × Int) :=
  if time_step = 0 then none
  else
    let derivative := u32_to_i32 (i32_to_u32 (wrap_i32 (last_error - error)) / time_step)
    some (error, wrap_i32 (DERIVATIVE_GAIN * derivative))

/-- `#define DERIVATIVE_GAIN_YAW 0`. -/
def DERIVATIVE_GAIN_YAW : Int := 0

/-- `calc_derivative_gain_yaw`, the copy of `calc_derivative_gain` for the yaw
axis with its own static `last_error`. -/
def calc_derivative_gain_yaw (last_error error : Int) (time_step : Nat) : Option (Int × Int) :=
  if time_step = 0 then none
  else
    let derivative := u32_to_i32 (i32_to_u32 (wrap_i32 (last_error - error)) / time_step)
    some (error, wrap_i32 (DERIVATIVE_GAIN_YAW * derivative))

/-- The base offset of the yaw duty: `int32_t yaw_pwm = 40;` then
`if ((curr_Targ_height == 0) && (error < 10)) yaw_pwm = 0;`, with `error` the
height error. -/
def yaw_offset (curr_Targ_height : Nat) (error : Int) : Int :=
  if curr_Targ_height = 0 ∧ error < 10 then 0 else 40

/-- The yaw base offset computed by a control cycle from its inputs. -/
def control_yaw_offset (curr_Targ_height curr_Meas_height ground_ADC : Nat) : Option Int :=
  match height_error curr_Targ_height curr_Meas_height ground_ADC with
  | none => none
  | some error => some (yaw_offset curr_Targ_height error)

/-- The statics of the two height PID helper functions. -/
structure HeightPID where
  last_error : Int
  total_intergral : Int
  deriving DecidableEq, Repr

/-- The height branch of one control cycle, from the error to the value sent on
`Q_mainDuty`: offset, `+=` of the three terms, `check_valid_pwm`. `none` when
the target index is outside the table or the derivative divides by zero. -/
def control_height_cycle (pid : HeightPID)
    (curr_Targ_height curr_Meas_height ground_ADC time_step : Nat) :
    Option (HeightPID × Int) :=
  match height_error curr_Targ_height curr_Meas_height ground_ADC with
  | none => none
  | some error =>
    let p := calc_proportional_gain error
    match calc_derivative_gain pid.last_error error time_step with
    | none => none
    | some (last_error, d) =>
      let integral := calc_intergral_gain pid.total_intergral error time_step
      some ({ last_error := last_error, total_intergral := integral.1 },
            height_pwm_published (height_offset curr_Targ_height error) p d integral.2)

/-! ## switch_task.c : setpoint stepping -/

/-- `#define HEIGHTMAXRANGE 10`. -/
def HEIGHTMAXRANGE : Nat := 10

/-- `#define YAWMAXRANGE 23`. -/
def YAWMAXRANGE : Nat := 23

/-- `checkButton`: the first component is the value left in `*prevButtonState`,
the second the value returned, with `curButtonState` the result of
`ButtonsPoll`. -/
def checkButton (prevButtonState curButtonState : Bool) : Bool × Bool :=
  if curButtonState ≠ prevButtonState ∧ curButtonState ≠ false then (curButtonState, true)
  else (curButtonState, false)

/-- The up-button branch: `ui32Height += 1;` then saturation at
`HEIGHTMAXRANGE`. -/
def press_up (ui32Height : Nat) : Nat :=
  let h := (ui32Height + 1) % 4294967296
  if h > HEIGHTMAXRANGE then HEIGHTMAXRANGE else h

/-- The right-button branch: `ui32Yaw += 1;` then wrap to 0 above
`YAWMAXRANGE`. -/
def press_right (ui32Yaw : Nat) : Nat :=
  let y := (ui32Yaw + 1) % 4294967296
  if y > YAWMAXRANGE then 0 else y

/-- The down-button branch: `if (ui32Height > 0) ui32Height -= 1;`. -/
def press_down (ui32Height : Nat) : Nat :=
  if ui32Height > 0 then ui32Height - 1 else ui32Height

/-- The left-button branch: decrement, or wrap from 0 to `YAWMAXRANGE`. -/
def press_left (ui32Yaw : Nat) : Nat :=
  if ui32Yaw > 0 then ui32Yaw - 1 else YAWMAXRANGE

/-- The results of the four `ButtonsPoll` calls of one loop iteration. -/
structure ButtonPolls where
  up : Bool
  right : Bool
  down : Bool
  left : Bool
  deriving DecidableEq, Repr

/-- The locals of `SwitchTask` and the pairs `(ui32Height, ui32Yaw)` sent so far
to `g_TargHeightControlQueue` and `g_TargYawControlQueue`. -/
structure SwitchState where
  ui8PrevButtonStateUp : Bool
  ui8PrevButtonStateRight : Bool
  ui8PrevButtonStateDown : Bool
  ui8PrevButtonStateLeft : Bool
  ui32Height : Nat
  ui32Yaw : Nat
  delivered : List (Nat × Nat)
  deriving DecidableEq, Repr

/-- The locals when `SwitchTask` enters its loop. -/
def switch_init : SwitchState :=
  { ui8PrevButtonStateUp := false, ui8PrevButtonStateRight := false,
    ui8PrevButtonStateDown := false, ui8PrevButtonStateLeft := false,
    ui32Height := 0, ui32Yaw := 0, delivered := [] }

/-- One iteration of the `while(1)` loop of `SwitchTask`: the four buttons are
checked in the order up, right, down, left, and if any was pressed the two
targets are sent (every `xQueueSend` succeeding). -/
def SwitchTask_step (s : SwitchState) (polls : ButtonPolls) : SwitchState :=
  let up := checkButton s.ui8PrevButtonStateUp polls.up
  let h1 := if up.2 then press_up s.ui32Height else s.ui32Height
  let right := checkButton s.ui8PrevButtonStateRight polls.right
  let y1 := if right.2 then press_right s.ui32Yaw else s.ui32Yaw
  let down := checkButton s.ui8PrevButtonStateDown polls.down
  let h2 := if down.2 then press_down h1 else h1
  let left := checkButton s.ui8PrevButtonStateLeft polls.left
  let y2 := if left.2 then press_left y1 else y1
  let buttonPressed := up.2 || right.2 || down.2 || left.2
  { ui8PrevButtonStateUp := up.1, ui8PrevButtonStateRight := right.1,
    ui8PrevButtonStateDown := down.1, ui8PrevButtonStateLeft := left.1,
    ui32Height := h2, ui32Yaw := y2,
    delivered := if buttonPressed then s.delivered ++ [(h2, y2)] else s.delivered }

/-- The switch task after a sequence of loop iterations. -/
def run_switch (s : SwitchState) (inputs : List ButtonPolls) : SwitchState :=
  inputs.foldl SwitchTask_step s

/-- Four successive samples along the Gray cycle 00, 10, 11, 01, 00 (bits B, A),
the reverse of `clockwise_cycle`, starting after a previous pair 00. -/
def anticlockwise_cycle : List PinLevels :=
  [⟨false, true⟩, ⟨true, true⟩, ⟨true, false⟩, ⟨false, false⟩]

/-- The smallest of the first `n` entries returned by the reads (`n > 0`). -/
def window_min (reads : Nat → Nat) (n : Nat) : Nat :=
  ((List.range n).map reads).foldl min (reads 0)

/-- The largest of the first `n` entries returned by the reads (`n > 0`). -/
def window_max (reads : Nat → Nat) (n : Nat) : Nat :=
  ((List.range n).map reads).foldl max (reads 0)

/-! ## Theorems -/

/-- C1: `check_valid_pwm` maps every raw output `x` to `min (max x 0) 99`
(below 0 gives 0, above 99 gives 99, values of `[0,99]` are kept, 150 gives 99),
and the height duty published by a control cycle, whatever the offset and the
three PID terms, lies in `[0,99]`. -/
theorem check_valid_pwm_clamps (x offset p d i : Int) :
    check_valid_pwm x = min (max x 0) 99
    ∧ check_valid_pwm x = (if x < 0 then 0 else if 99 < x then 99 else x)
    ∧ check_valid_pwm 150 = 99
    ∧ height_pwm_published 50 100 0 0 = 99
    ∧ height_pwm_published offset p d i = min (max (height_pwm_raw offset p d i) 0) 99
    ∧ 0 ≤ height_pwm_published offset p d i
    ∧ height_pwm_published offset p d i ≤ 99 := by
  have key : ∀ y : Int, check_valid_pwm y = min (max y 0) 99 := by
    intro y
    unfold check_valid_pwm
    split_ifs <;> omega
  refine ⟨key x, ?_, by decide, by decide, key _, ?_, ?_⟩
  · unfold check_valid_pwm
    split_ifs <;> omega
  · unfold height_pwm_published
    rw [key]
    omega
  · unfold height_pwm_published
    rw [key]
    omega

/-- C2: the yaw duty published by a control cycle is `min (max x 0) 85` of the
raw yaw output `x`; a raw output of 150 gives 85 and the published value is
always in `[0,85]`. -/
theorem yaw_pwm_published_clamps (x offset p d i : Int) :
    yaw_pwm_limit x = min (max x 0) 85
    ∧ yaw_pwm_limit 150 = 85
    ∧ yaw_pwm_published 40 110 0 0 = 85
    ∧ yaw_pwm_published offset p d i = min (max (yaw_pwm_raw offset p d i) 0) 85
    ∧ 0 ≤ yaw_pwm_published offset p d i
    ∧ yaw_pwm_published offset p d i ≤ 85 := by
  have key : ∀ y : Int, yaw_pwm_limit y = min (max y 0) 85 := by
    intro y
    unfold yaw_pwm_limit check_valid_pwm
    simp only
    split_ifs <;> omega
  refine ⟨key x, by decide, by decide, key _, ?_, ?_⟩
  · unfold yaw_pwm_published
    rw [key]
    omega
  · unfold yaw_pwm_published
    rw [key]
    omega

/-- C3 (evaluation at the failing input): with target index 13 (angle -165) and
measured yaw 179 the control loop keeps the direct candidate -344, whose
magnitude exceeds 180, although 16 is congruent to the same difference modulo
360; the candidate `targ - (curr_Meas_yaw - 360)` is never formed. A measured
yaw of 179 is what the decoder publishes for counter 223. -/
theorem y_error_chosen_long_way_round :
    yaws_array[13]? = some (-165)
    ∧ y_error1 (-165) 179 = -344
    ∧ y_error2 (-165) 179 = -704
    ∧ control_y_error_chosen 13 179 = some (-344)
    ∧ control_y_error 13 179 = some 344
    ∧ ¬ (|(-344 : Int)| ≤ 180)
    ∧ ((16 : Int) - (-165 - 179)) % 360 = 0
    ∧ get_current_yaw (convert_to_degree { yaw_init with yaw_counter := 223 }) = 179 := by
  refine ⟨by decide, by decide, by decide, by decide, by decide, ?_, by decide, by decide⟩
  norm_num

/-- C4: for a target angle `t` and a measured yaw `c` (both of magnitude at most
10^9, so that no 32-bit operation overflows) the control loop forms
`e1 = t - c` and `e2 = t - (c + 360)`, keeps one of the two whose absolute value
is the smaller, and uses its negation as the yaw error; for `t = 179`,
`c = -165` it keeps the wraparound candidate -16, not the direct candidate 344. -/
theorem y_error_selects_smaller_candidate (t c : Int)
    (ht : -1000000000 ≤ t ∧ t ≤ 1000000000)
    (hc : -1000000000 ≤ c ∧ c ≤ 1000000000) :
    y_error1 t c = t - c
    ∧ y_error2 t c = t - (c + 360)
    ∧ y_error_chosen t c =
        (if |y_error1 t c| < |y_error2 t c| then y_error1 t c else y_error2 t c)
    ∧ |y_error_chosen t c| = min |y_error1 t c| |y_error2 t c|
    ∧ y_error t c = -(y_error_chosen t c)
    ∧ y_error1 179 (-165) = 344
    ∧ y_error2 179 (-165) = -16
    ∧ y_error_chosen 179 (-165) = -16
    ∧ control_y_error_chosen 12 (-165) = some (-16)
    ∧ control_y_error 12 (-165) = some 16 := by
  obtain ⟨ht1, ht2⟩ := ht
  obtain ⟨hc1, hc2⟩ := hc
  have h1 : y_error1 t c = t - c := by
    unfold y_error1 wrap_i32
    omega
  have h2 : y_error2 t c = t - (c + 360) := by
    unfold y_error2 wrap_i32
    omega
  have habs : ∀ x : Int, -2147483648 < x → c_abs x = |x| := by
    intro x hx
    unfold c_abs wrap_i32
    split_ifs with hneg
    · rw [abs_of_neg hneg]
      omega
    · rw [abs_of_nonneg (by omega)]
  have hch : y_error_chosen t c =
      (if |y_error1 t c| < |y_error2 t c| then y_error1 t c else y_error2 t c) := by
    unfold y_error_chosen
    rw [habs _ (by rw [h1]; omega), habs _ (by rw [h2]; omega)]
  refine ⟨h1, h2, hch, ?_, ?_, by decide, by decide, by decide, by decide, by decide⟩
  · rw [hch]
    split_ifs with hlt
    · exact (min_eq_left (le_of_lt hlt)).symm
    · exact (min_eq_right (not_lt.mp hlt)).symm
  · unfold y_error
    rw [hch, h1, h2]
    unfold wrap_i32
    split_ifs <;> omega

/-- Witness for C4 at the seam example `t = 179`, `c = -165`. -/
theorem y_error_selects_smaller_candidate_witness :
    y_error1 179 (-165) = 179 - (-165)
    ∧ y_error2 179 (-165) = 179 - (-165 + 360)
    ∧ y_error 179 (-165) = -(y_error_chosen 179 (-165)) :=
  have h := y_error_selects_smaller_candidate 179 (-165) (by decide) (by decide)
  ⟨h.1, h.2.1, h.2.2.2.2.1⟩

theorem window_sum_succ (reads : Nat → Nat) (n : Nat) :
    window_sum reads (n + 1) = window_sum reads n + reads n := by
  unfold window_sum
  rw [List.range_succ, List.map_append, List.sum_append]
  simp

theorem i32_to_u32_u32_to_i32 (n : Nat) (h : n < 4294967296) :
    i32_to_u32 (u32_to_i32 n) = n := by
  unfold i32_to_u32 u32_to_i32 wrap_i32
  omega

theorem meanAltiduteADC_sum_eq (reads : Nat → Nat) (n : Nat)
    (h : window_sum reads n < 2147483648) :
    meanAltiduteADC_sum reads n = (window_sum reads n : Int) := by
  induction n with
  | zero => simp [meanAltiduteADC_sum, window_sum]
  | succ k ih =>
    rw [window_sum_succ] at h
    have hk := ih (by omega)
    rw [meanAltiduteADC_sum, hk, window_sum_succ]
    unfold u32_to_i32 i32_to_u32 wrap_i32
    omega

theorem readAverageCircBuf_sum_eq (reads : Nat → Nat) (n : Nat)
    (h : window_sum reads n < 4294967296) :
    readAverageCircBuf_sum reads n = window_sum reads n := by
  induction n with
  | zero => simp [readAverageCircBuf_sum, window_sum]
  | succ k ih =>
    rw [window_sum_succ] at h
    have hk := ih (by omega)
    rw [readAverageCircBuf_sum, hk, window_sum_succ]
    omega

theorem meanAltiduteADC_eq (size : Nat) (reads : Nat → Nat) (hsize : 0 < size)
    (h : 2 * window_sum reads size + size < 2147483648) :
    meanAltiduteADC size reads = some ((2 * window_sum reads size + size) / 2 / size) := by
  have hsum := meanAltiduteADC_sum_eq reads size (by omega)
  have hne : size ≠ 0 := by omega
  unfold meanAltiduteADC
  simp only [hne, if_false, hsum]
  have htw : (i32_to_u32 (wrap_i32 (2 * (window_sum reads size : Int))) + size) % 4294967296
      = 2 * window_sum reads size + size := by
    unfold i32_to_u32 wrap_i32
    omega
  rw [htw]
  have hle : (2 * window_sum reads size + size) / 2 / size < 4294967296 := by
    have h1 := Nat.div_le_self ((2 * window_sum reads size + size) / 2) size
    have h2 := Nat.div_le_self (2 * window_sum reads size + size) 2
    omega
  rw [i32_to_u32_u32_to_i32 _ hle]

theorem readAverageCircBuf_eq (reads : Nat → Nat)
    (h : 2 * window_sum reads 10 + 10 < 4294967296) :
    readAverageCircBuf reads = (2 * window_sum reads 10 + 10) / 2 / 10 := by
  have hsum := readAverageCircBuf_sum_eq reads 10 (by omega)
  unfold readAverageCircBuf
  simp only [hsum]
  omega

/-- C5: on a window of `n` samples with exact sum `S` (no 32-bit overflow in
`2*S + n`), the mean that the code computes with two successive divisions,
`(2*S + n) / 2 / n`, is exactly `floor((2*S + n) / (2*n))`: for
`meanAltiduteADC` with any capacity `n > 0` (5 in the firmware) and for
`readAverageCircBuf` with `n = 10`. -/
theorem mean_two_divisions_is_floor (size : Nat) (reads reads10 : Nat → Nat)
    (hsize : 0 < size)
    (h : 2 * window_sum reads size + size < 2147483648)
    (h10 : 2 * window_sum reads10 10 + 10 < 4294967296) :
    meanAltiduteADC size reads = some ((2 * window_sum reads size + size) / 2 / size)
    ∧ meanAltiduteADC size reads = some ((2 * window_sum reads size + size) / (2 * size))
    ∧ readAverageCircBuf reads10 = (2 * window_sum reads10 10 + 10) / 2 / 10
    ∧ readAverageCircBuf reads10 = (2 * window_sum reads10 10 + 10) / (2 * 10) := by
  have hm := meanAltiduteADC_eq size reads hsize h
  have hr := readAverageCircBuf_eq reads10 h10
  refine ⟨hm, ?_, hr, ?_⟩
  · rw [hm, Nat.div_div_eq_div_mul]
  · rw [hr, Nat.div_div_eq_div_mul]

/-- Witness for C5: capacity 5 with samples 10..50 and capacity 10 with ten
samples of 4095. -/
theorem mean_two_divisions_is_floor_witness :
    meanAltiduteADC 5 (window_of [10, 20, 30, 40, 50])
      = some ((2 * window_sum (window_of [10, 20, 30, 40, 50]) 5 + 5) / (2 * 5))
    ∧ readAverageCircBuf (fun _ => 4095)
      = (2 * window_sum (fun _ => 4095) 10 + 10) / (2 * 10) :=
  have h := mean_two_divisions_is_floor 5 (window_of [10, 20, 30, 40, 50]) (fun _ => 4095)
    (by decide) (by decide) (by decide)
  ⟨h.2.1, h.2.2.2⟩

/-- C6: the mean `m` of a window of `n` samples with sum `S` satisfies
`2*n*m ≤ 2*S + n < 2*n*(m+1)` (round to nearest, halves up), for
`meanAltiduteADC` with any capacity `n > 0` and for `readAverageCircBuf`
(`n = 10`); capacity 5 with samples 10, 20, 30, 40, 50 gives 30 and capacity 5
with sum 101 gives 20. -/
theorem mean_rounds_to_nearest (size : Nat) (reads reads10 : Nat → Nat)
    (hsize : 0 < size)
    (h : 2 * window_sum reads size + size < 2147483648)
    (h10 : 2 * window_sum reads10 10 + 10 < 4294967296) :
    (∃ m, meanAltiduteADC size reads = some m
        ∧ 2 * size * m ≤ 2 * window_sum reads size + size
        ∧ 2 * window_sum reads size + size < 2 * size * (m + 1))
    ∧ 2 * 10 * readAverageCircBuf reads10 ≤ 2 * window_sum reads10 10 + 10
    ∧ 2 * window_sum reads10 10 + 10 < 2 * 10 * (readAverageCircBuf reads10 + 1)
    ∧ meanAltiduteADC 5 (window_of [10, 20, 30, 40, 50]) = some 30
    ∧ window_sum (window_of [21, 20, 20, 20, 20]) 5 = 101
    ∧ meanAltiduteADC 5 (window_of [21, 20, 20, 20, 20]) = some 20 := by
  have hm := meanAltiduteADC_eq size reads hsize h
  have hr := readAverageCircBuf_eq reads10 h10
  rw [Nat.div_div_eq_div_mul] at hm hr
  have hpos : 0 < 2 * size := by omega
  refine ⟨⟨_, hm, ?_, ?_⟩, ?_, ?_, by decide, by decide, by decide⟩
  · exact Nat.mul_div_le _ _
  · exact Nat.lt_mul_div_succ _ hpos
  · rw [hr]
    omega
  · rw [hr]
    omega

/-- Witness for C6: capacity 5 with sum 101 and capacity 10 with ten samples of
4095. -/
theorem mean_rounds_to_nearest_witness :
    (∃ m, meanAltiduteADC 5 (window_of [21, 20, 20, 20, 20]) = some m
        ∧ 2 * 5 * m ≤ 2 * window_sum (window_of [21, 20, 20, 20, 20]) 5 + 5
        ∧ 2 * window_sum (window_of [21, 20, 20, 20, 20]) 5 + 5 < 2 * 5 * (m + 1))
    ∧ 2 * 10 * readAverageCircBuf (fun _ => 4095) ≤ 2 * window_sum (fun _ => 4095) 10 + 10 :=
  have h := mean_rounds_to_nearest 5 (window_of [21, 20, 20, 20, 20]) (fun _ => 4095)
    (by decide) (by decide) (by decide)
  ⟨h.1, h.2.1⟩

theorem ISR_GET_DIRECTION_counter (s : YawState) (pins : PinLevels)
    (h : -2147483648 < s.yaw_counter ∧ s.yaw_counter < 2147483647) :
    (ISR_GET_DIRECTION s pins).yaw_counter
      = s.yaw_counter
        - Dir_List.getD (direction_index s.prev_State_B s.prev_State_A pins.phaseB pins.phaseA) 0 := by
  obtain ⟨pa, pb, ca, cb, o, c, d⟩ := s
  obtain ⟨a, b⟩ := pins
  simp only at h
  cases pa <;> cases pb <;> cases a <;> cases b <;>
    simp [ISR_GET_DIRECTION, counterYaw, updateDirection, direction_index, Dir_List,
      GPIOPinRead_PHASE_A, GPIOPinRead_PHASE_B, ANTICLOCKWISE, CLOCKWISE, wrap_i32] <;>
    omega

theorem ISR_GET_DIRECTION_prev (s : YawState) (pins : PinLevels) :
    (ISR_GET_DIRECTION s pins).prev_State_A = pins.phaseA
    ∧ (ISR_GET_DIRECTION s pins).prev_State_B = pins.phaseB
    ∧ (ISR_GET_DIRECTION s pins).current_State_A = pins.phaseA
    ∧ (ISR_GET_DIRECTION s pins).current_State_B = pins.phaseB := by
  obtain ⟨pa, pb, ca, cb, o, c, d⟩ := s
  obtain ⟨a, b⟩ := pins
  cases pa <;> cases pb <;> cases a <;> cases b <;>
    simp [ISR_GET_DIRECTION, counterYaw, updateDirection, direction_index, Dir_List,
      GPIOPinRead_PHASE_A, GPIOPinRead_PHASE_B, ANTICLOCKWISE, CLOCKWISE]

theorem Dir_List_entry_bounds (prevB prevA curB curA : Bool) :
    -1 ≤ Dir_List.getD (direction_index prevB prevA curB curA) 0
    ∧ Dir_List.getD (direction_index prevB prevA curB curA) 0 ≤ 1 := by
  cases prevB <;> cases prevA <;> cases curB <;> cases curA <;> decide

/-- C7 (as stated, refuted): from the initial state, sampling A = 1, B = 0
gives index 1, whose table value is `CLOCKWISE = -1`, and the counter goes from
0 to 1, not to `0 + (-1)`. -/
theorem ISR_GET_DIRECTION_clockwise_counts_up :
    direction_index yaw_init.prev_State_B yaw_init.prev_State_A false true = 1
    ∧ Dir_List.getD 1 0 = CLOCKWISE
    ∧ (ISR_GET_DIRECTION yaw_init ⟨true, false⟩).yaw_counter = 1
    ∧ (ISR_GET_DIRECTION yaw_init ⟨true, false⟩).yaw_counter
        ≠ yaw_init.yaw_counter
          + Dir_List.getD
              (direction_index yaw_init.prev_State_B yaw_init.prev_State_A false true) 0 := by
  decide

/-- C7 (amended): on every edge interrupt (`updateDirection` then `counterYaw`),
with index `(prevB<<3 | prevA<<2 | curB<<1 | curA)`, the looked-up orientation is
the table value at that index and the counter after the update is the counter
before MINUS that value (Clockwise = -1 counts up, Anticlockwise = +1 counts
down, Still = 0 leaves it), for a counter strictly inside the `int32_t` range;
the stored previous pair becomes the sampled pair. -/
theorem ISR_GET_DIRECTION_subtracts_table_value (s : YawState) (pins : PinLevels)
    (h : -2147483648 < s.yaw_counter ∧ s.yaw_counter < 2147483647) :
    direction_index s.prev_State_B s.prev_State_A pins.phaseB pins.phaseA
      = ((s.prev_State_B.toNat <<< 3) ||| (s.prev_State_A.toNat <<< 2)
          ||| (pins.phaseB.toNat <<< 1) ||| pins.phaseA.toNat)
    ∧ direction_index s.prev_State_B s.prev_State_A pins.phaseB pins.phaseA < 16
    ∧ (updateDirection s pins).orientation
        = Dir_List.getD
            (direction_index s.prev_State_B s.prev_State_A pins.phaseB pins.phaseA) 0
    ∧ (ISR_GET_DIRECTION s pins).yaw_counter
        = s.yaw_counter
          - Dir_List.getD
              (direction_index s.prev_State_B s.prev_State_A pins.phaseB pins.phaseA) 0
    ∧ (ISR_GET_DIRECTION s pins).prev_State_A = pins.phaseA
    ∧ (ISR_GET_DIRECTION s pins).prev_State_B = pins.phaseB := by
  have hprev := ISR_GET_DIRECTION_prev s pins
  refine ⟨?_, ?_, ?_, ISR_GET_DIRECTION_counter s pins h, hprev.1, hprev.2.1⟩
  · cases s.prev_State_B <;> cases s.prev_State_A <;> cases pins.phaseB <;>
      cases pins.phaseA <;> decide
  · cases s.prev_State_B <;> cases s.prev_State_A <;> cases pins.phaseB <;>
      cases pins.phaseA <;> decide
  · obtain ⟨pa, pb, ca, cb, o, c, d⟩ := s
    obtain ⟨a, b⟩ := pins
    cases a <;> cases b <;>
      simp [updateDirection, GPIOPinRead_PHASE_A, GPIOPinRead_PHASE_B]

/-- Witness for C7 (amended): the initial state sampled with A = 1, B = 0. -/
theorem ISR_GET_DIRECTION_subtracts_table_value_witness :
    (ISR_GET_DIRECTION yaw_init ⟨true, false⟩).yaw_counter
      = yaw_init.yaw_counter
        - Dir_List.getD
            (direction_index yaw_init.prev_State_B yaw_init.prev_State_A false true) 0
    ∧ (ISR_GET_DIRECTION yaw_init ⟨true, false⟩).prev_State_A = true
    ∧ (ISR_GET_DIRECTION yaw_init ⟨true, false⟩).prev_State_B = false :=
  have h := ISR_GET_DIRECTION_subtracts_table_value yaw_init ⟨true, false⟩ (by decide)
  ⟨h.2.2.2.1, h.2.2.2.2.1, h.2.2.2.2.2⟩

theorem ISR_GET_DIRECTION_counter_step (s : YawState) (pins : PinLevels)
    (h : -2147483648 < s.yaw_counter ∧ s.yaw_counter < 2147483647) :
    s.yaw_counter - 1 ≤ (ISR_GET_DIRECTION s pins).yaw_counter
    ∧ (ISR_GET_DIRECTION s pins).yaw_counter ≤ s.yaw_counter + 1 := by
  have hc := ISR_GET_DIRECTION_counter s pins h
  have hb := Dir_List_entry_bounds s.prev_State_B s.prev_State_A pins.phaseB pins.phaseA
  omega

theorem run_edges_counter_bounds (edges : List PinLevels) :
    ∀ s : YawState,
      -2147483648 < s.yaw_counter - edges.length →
      s.yaw_counter + edges.length < 2147483647 →
      s.yaw_counter - edges.length ≤ (run_edges s edges).yaw_counter
      ∧ (run_edges s edges).yaw_counter ≤ s.yaw_counter + edges.length := by
  induction edges with
  | nil =>
    intro s _ _
    simp [run_edges]
  | cons e rest ih =>
    intro s hlo hhi
    simp only [List.length_cons, Nat.cast_add, Nat.cast_one] at hlo hhi ⊢
    have hstep := ISR_GET_DIRECTION_counter_step s e (by omega)
    have hrest := ih (ISR_GET_DIRECTION s e) (by omega) (by omega)
    have hrun : run_edges s (e :: rest) = run_edges (ISR_GET_DIRECTION s e) rest := by
      simp [run_edges]
    rw [hrun]
    omega

theorem convert_to_degree_counter (s : YawState)
    (h : -2147483648 ≤ s.yaw_counter ∧ s.yaw_counter < 2147483648) :
    (convert_to_degree s).yaw_counter
      = (if s.yaw_counter > 224 then s.yaw_counter - 448
         else if s.yaw_counter < -223 then s.yaw_counter + 448
         else s.yaw_counter) := by
  unfold convert_to_degree
  simp only [yaw_ticks]
  split_ifs <;> simp only [u32_to_i32, i32_to_u32, wrap_i32] <;> omega

theorem period_keeps_counter_in_range (s : YawState) (edges : List PinLevels)
    (hs : -224 < s.yaw_counter ∧ s.yaw_counter ≤ 224) (hlen : edges.length ≤ 448) :
    -224 < (convert_to_degree (run_edges s edges)).yaw_counter
    ∧ (convert_to_degree (run_edges s edges)).yaw_counter ≤ 224 := by
  have hb := run_edges_counter_bounds edges s (by omega) (by omega)
  have hc := convert_to_degree_counter (run_edges s edges) (by omega)
  rw [hc]
  split_ifs <;> omega

/-- C8 (as stated, refuted): the edge interrupt does not normalise. From the
initial state 225 clockwise edges leave the counter at 225, outside (-224, 224];
and from counter 223 three clockwise edges leave it at 226, no 448 having been
subtracted. The normalisation of `convert_to_degree` subtracts 448 only once:
after 449 clockwise edges from counter 224 it leaves 225. -/
theorem edge_interrupts_leave_counter_range :
    (run_edges yaw_init (clockwise_edges 225)).yaw_counter = 225
    ∧ ¬ (∀ edges : List PinLevels,
          -224 < (run_edges yaw_init edges).yaw_counter
          ∧ (run_edges yaw_init edges).yaw_counter ≤ 224)
    ∧ (run_edges { yaw_init with yaw_counter := 223 } (clockwise_edges 3)).yaw_counter = 226
    ∧ (convert_to_degree
        (run_edges { yaw_init with yaw_counter := 224 } (clockwise_edges 449))).yaw_counter
        = 225 := by
  have h225 : (run_edges yaw_init (clockwise_edges 225)).yaw_counter = 225 := by decide!
  refine ⟨h225, ?_, by decide, by decide!⟩
  intro hall
  have h := (hall (clockwise_edges 225)).2
  rw [h225] at h
  omega

/-- C8 (amended): the counter is within (-224, 224] after every normalisation:
starting from a counter in (-224, 224], after any sequence of `yawTask` periods,
each made of at most 448 edge interrupts followed by `convert_to_degree`, the
counter is in (-224, 224]. E.g. from counter 223, three clockwise updates give
226 and the `convert_to_degree` that follows subtracts 448 once, giving -222. -/
theorem counter_in_range_after_every_period (s : YawState) (periods : List (List PinLevels))
    (hs : -224 < s.yaw_counter ∧ s.yaw_counter ≤ 224)
    (hp : ∀ edges ∈ periods, edges.length ≤ 448) :
    (-224 < (run_periods s periods).yaw_counter ∧ (run_periods s periods).yaw_counter ≤ 224)
    ∧ (convert_to_degree
        (run_edges { yaw_init with yaw_counter := 223 } (clockwise_edges 3))).yaw_counter
        = 226 - 448 := by
  refine ⟨?_, by decide⟩
  induction periods generalizing s with
  | nil => simpa [run_periods] using hs
  | cons edges rest ih =>
    have hfirst := period_keeps_counter_in_range s edges hs
      (hp edges (List.mem_cons_self _ _))
    have hrest := ih (convert_to_degree (run_edges s edges)) hfirst
      (fun e he => hp e (List.mem_cons_of_mem _ he))
    simpa [run_periods] using hrest

/-- Witness for C8 (amended): two periods from the initial state, the first
with 448 clockwise edges. -/
theorem counter_in_range_after_every_period_witness :
    -224 < (run_periods yaw_init [clockwise_edges 448, clockwise_edges 3]).yaw_counter
    ∧ (run_periods yaw_init [clockwise_edges 448, clockwise_edges 3]).yaw_counter ≤ 224 :=
  (counter_in_range_after_every_period yaw_init [clockwise_edges 448, clockwise_edges 3]
    (by decide) (by simp [clockwise_edges])).1

/-- C9: `convert_to_degree` subtracts 448 from a counter greater than 224, adds
448 to a counter less than -223 and leaves any other counter unchanged; hence
for every counter in [-671, 672] the counter after the call lies in (-224, 224]
and is congruent to the input modulo 448. -/
theorem convert_to_degree_normalises (s : YawState)
    (h : -2147483648 ≤ s.yaw_counter ∧ s.yaw_counter < 2147483648) :
    (convert_to_degree s).yaw_counter
      = (if s.yaw_counter > 224 then s.yaw_counter - 448
         else if s.yaw_counter < -223 then s.yaw_counter + 448
         else s.yaw_counter)
    ∧ (-671 ≤ s.yaw_counter ∧ s.yaw_counter ≤ 672 →
        -224 < (convert_to_degree s).yaw_counter
        ∧ (convert_to_degree s).yaw_counter ≤ 224
        ∧ (convert_to_degree s).yaw_counter % 448 = s.yaw_counter % 448) := by
  have hc := convert_to_degree_counter s h
  refine ⟨hc, ?_⟩
  intro hr
  rw [hc]
  split_ifs <;> omega

/-- Witness for C9: counters 672 and -671, the ends of the interval. -/
theorem convert_to_degree_normalises_witness :
    (convert_to_degree { yaw_init with yaw_counter := 672 }).yaw_counter = 224
    ∧ (convert_to_degree { yaw_init with yaw_counter := -671 }).yaw_counter = -223
    ∧ (-224 < (convert_to_degree { yaw_init with yaw_counter := 672 }).yaw_counter
        ∧ (convert_to_degree { yaw_init with yaw_counter := 672 }).yaw_counter ≤ 224
        ∧ (convert_to_degree { yaw_init with yaw_counter := 672 }).yaw_counter % 448
            = (672 : Int) % 448) :=
  ⟨(convert_to_degree_normalises { yaw_init with yaw_counter := 672 } (by decide)).1,
   by decide,
   (convert_to_degree_normalises { yaw_init with yaw_counter := 672 } (by decide)).2
     (by decide)⟩

/-- C10: a full revolution maps to the same angle: for every counter `c` in
(-224, 224], `convert_to_degree` run from `c + 448` leaves the same counter and
the same degree (indeed the same decoder state) as run from `c`; in particular
the degree for counter 448 equals the degree for counter 0. -/
theorem convert_to_degree_full_revolution (s : YawState)
    (h : -224 < s.yaw_counter ∧ s.yaw_counter ≤ 224) :
    (convert_to_degree { s with yaw_counter := s.yaw_counter + 448 }).yaw_counter
      = (convert_to_degree s).yaw_counter
    ∧ (convert_to_degree { s with yaw_counter := s.yaw_counter + 448 }).yaw_degree
      = (convert_to_degree s).yaw_degree
    ∧ convert_to_degree { s with yaw_counter := s.yaw_counter + 448 } = convert_to_degree s
    ∧ (convert_to_degree s).yaw_counter = s.yaw_counter
    ∧ get_current_yaw (convert_to_degree { yaw_init with yaw_counter := 448 })
      = get_current_yaw (convert_to_degree { yaw_init with yaw_counter := 0 }) := by
  have h1 : (convert_to_degree { s with yaw_counter := s.yaw_counter + 448 }).yaw_counter
      = s.yaw_counter := by
    rw [convert_to_degree_counter _ (by simp only; omega)]
    simp only
    split_ifs <;> omega
  have h2 : (convert_to_degree s).yaw_counter = s.yaw_counter := by
    rw [convert_to_degree_counter _ (by omega)]
    split_ifs <;> omega
  have hdeg : ∀ t : YawState,
      (convert_to_degree t).yaw_degree = counter_times_ratio (convert_to_degree t).yaw_counter := by
    intro t
    rfl
  have hstate : convert_to_degree { s with yaw_counter := s.yaw_counter + 448 }
      = convert_to_degree s := by
    have e1 : convert_to_degree { s with yaw_counter := s.yaw_counter + 448 }
        = { s with yaw_counter := (convert_to_degree
              { s with yaw_counter := s.yaw_counter + 448 }).yaw_counter,
                   yaw_degree := (convert_to_degree
              { s with yaw_counter := s.yaw_counter + 448 }).yaw_degree } := rfl
    have e2 : convert_to_degree s
        = { s with yaw_counter := (convert_to_degree s).yaw_counter,
                   yaw_degree := (convert_to_degree s).yaw_degree } := rfl
    rw [e1, e2, hdeg, hdeg, h1, h2]
  refine ⟨by rw [h1, h2], by rw [hstate], hstate, h2, by decide⟩

/-- Witness for C10: counter 224, whose shifted copy is 672. -/
theorem convert_to_degree_full_revolution_witness :
    (convert_to_degree { yaw_init with yaw_counter := 224 + 448 }).yaw_counter
      = (convert_to_degree { yaw_init with yaw_counter := 224 }).yaw_counter
    ∧ (convert_to_degree { yaw_init with yaw_counter := 224 + 448 }).yaw_degree
      = (convert_to_degree { yaw_init with yaw_counter := 224 }).yaw_degree :=
  have h := convert_to_degree_full_revolution { yaw_init with yaw_counter := 224 } (by decide)
  ⟨h.1, h.2.1⟩

theorem counter_times_ratio_table :
    ∀ k : Fin 448,
      counter_times_ratio ((k.val : Int) - 223) = Int.tdiv (((k.val : Int) - 223) * 360) 448
      ∧ counter_times_ratio ((k.val : Int) - 223) = Int.tdiv (45 * ((k.val : Int) - 223)) 56
      ∧ -179 ≤ counter_times_ratio ((k.val : Int) - 223)
      ∧ counter_times_ratio ((k.val : Int) - 223) ≤ 180 := by
  decide!

theorem counter_times_ratio_exact (c : Int) (h : -224 < c ∧ c ≤ 224) :
    counter_times_ratio c = Int.tdiv (c * 360) 448
    ∧ counter_times_ratio c = Int.tdiv (45 * c) 56
    ∧ -179 ≤ counter_times_ratio c
    ∧ counter_times_ratio c ≤ 180 := by
  have hk := counter_times_ratio_table ⟨(c + 223).toNat, by omega⟩
  have hc : (((c + 223).toNat : Nat) : Int) - 223 = c := by omega
  simp only [hc] at hk
  exact hk

/-- C11: for every normalised counter `c` in (-224, 224], `convert_to_degree`
publishes `c * 360 / 448 = 45 * c / 56` (the exact ratio) truncated toward zero;
the binary32 product of the code never falls on the wrong side of an integer in
this range. The degree returned by `get_current_yaw` lies in [-179, 180];
counter 0 gives 0 and counter 224 gives 180. -/
theorem convert_to_degree_truncates_exact_ratio (s : YawState)
    (h : -224 < s.yaw_counter ∧ s.yaw_counter ≤ 224) :
    (convert_to_degree s).yaw_counter = s.yaw_counter
    ∧ get_current_yaw (convert_to_degree s) = Int.tdiv (s.yaw_counter * 360) 448
    ∧ get_current_yaw (convert_to_degree s) = Int.tdiv (45 * s.yaw_counter) 56
    ∧ -179 ≤ get_current_yaw (convert_to_degree s)
    ∧ get_current_yaw (convert_to_degree s) ≤ 180
    ∧ get_current_yaw (convert_to_degree { yaw_init with yaw_counter := 0 }) = 0
    ∧ get_current_yaw (convert_to_degree { yaw_init with yaw_counter := 224 }) = 180 := by
  have hcnt : (convert_to_degree s).yaw_counter = s.yaw_counter := by
    rw [convert_to_degree_counter s (by omega)]
    split_ifs <;> omega
  have hdeg : get_current_yaw (convert_to_degree s)
      = counter_times_ratio (convert_to_degree s).yaw_counter := rfl
  rw [hdeg, hcnt]
  obtain ⟨h1, h2, h3, h4⟩ := counter_times_ratio_exact s.yaw_counter h
  exact ⟨rfl, h1, h2, h3, h4, by decide, by decide⟩

/-- Witness for C11: counter -223, the most negative normalised counter, whose
degree is -179. -/
theorem convert_to_degree_truncates_exact_ratio_witness :
    get_current_yaw (convert_to_degree { yaw_init with yaw_counter := -223 })
      = Int.tdiv (-223 * 360) 448
    ∧ -179 ≤ get_current_yaw (convert_to_degree { yaw_init with yaw_counter := -223 }) :=
  have h := convert_to_degree_truncates_exact_ratio { yaw_init with yaw_counter := -223 }
    (by decide)
  ⟨h.2.1, h.2.2.2.1⟩

theorem ping_pong_succ (n : Nat) :
    ping_pong (n + 1)
      = ping_pong n ++ [if n % 2 = 0 then HandoffEvent.sampler else HandoffEvent.control] := by
  unfold ping_pong
  rw [List.range_succ, List.map_append]
  rfl

theorem handoff_step_inv (s : HandoffState) (a : HandoffAction) (n : Nat)
    (h : handoff_inv s n) : ∃ m, handoff_inv (handoff_step s a) m := by
  obtain ⟨adc, ctl, rig, ctrl, events⟩ := s
  obtain ⟨hev, h1, h2, h3, h4⟩ := h
  simp only at hev h1 h2 h3 h4
  cases a <;> simp only [handoff_step] <;> split_ifs with hc
  · obtain ⟨hw, ha⟩ := hc
    obtain ⟨hp, hctl, -, hcr⟩ := h1 ha
    refine ⟨n + 1, ?_, ?_, ?_, ?_, ?_⟩
    · simp only [ping_pong_succ, hev, hp, if_true]
    · intro hf; exact absurd hf (by simp)
    · intro ht; simp only at ht; rw [hctl] at ht; exact absurd ht (by simp)
    · intro _; exact ⟨by omega, hcr⟩
    · intro hr; exact absurd hr hcr
  · exact ⟨n, hev, h1, h2, h3, h4⟩
  · obtain ⟨hp, hcr⟩ := h3 hc
    refine ⟨n, hev, ?_, ?_, ?_, ?_⟩
    · intro ha; simp only at ha; have := (h1 ha).1; omega
    · intro _; exact ⟨hp, by simp, hcr⟩
    · intro hr; exact absurd hr (by simp)
    · intro hr; exact absurd hr hcr
  · exact ⟨n, hev, h1, h2, h3, h4⟩
  · obtain ⟨hp, hcr⟩ := h3 hc
    refine ⟨n, hev, ?_, ?_, ?_, ?_⟩
    · intro ha; simp only at ha; have := (h1 ha).1; omega
    · intro hct; simp only at hct; exact ⟨hp, by simp, hcr⟩
    · intro hr; exact absurd hr (by simp)
    · intro hr; exact absurd hr hcr
  · exact ⟨n, hev, h1, h2, h3, h4⟩
  · obtain ⟨hw, hct⟩ := hc
    obtain ⟨hp, hrr, -⟩ := h2 hct
    refine ⟨n + 1, ?_, ?_, ?_, ?_, ?_⟩
    · have hne : ¬ n % 2 = 0 := by omega
      simp only [ping_pong_succ, hev, hne, if_false]
    · intro ha; simp only at ha; have := (h1 ha).1; omega
    · intro hf; exact absurd hf (by simp)
    · intro hr; exact absurd hr hrr
    · intro _; omega
  · exact ⟨n, hev, h1, h2, h3, h4⟩
  · have hp := h4 hc
    refine ⟨n, hev, ?_, ?_, ?_, ?_⟩
    · intro _
      refine ⟨hp, ?_, ?_, by simp⟩
      · cases hctl : ctl with
        | false => rfl
        | true => have := (h2 hctl).1; omega
      · intro hr; have := (h3 hr).1; omega
    · intro hct; simp only at hct; have := (h2 hct).1; omega
    · intro hr; have := (h3 hr).1; omega
    · intro hr; exact absurd hr (by simp)
  · exact ⟨n, hev, h1, h2, h3, h4⟩
  · have hp := h4 hc
    refine ⟨n, hev, ?_, ?_, ?_, ?_⟩
    · intro ha; simp only at ha
      obtain ⟨hp0, hctl, hrr, -⟩ := h1 ha
      exact ⟨hp0, hctl, hrr, by simp⟩
    · intro hct; simp only at hct; have := (h2 hct).1; omega
    · intro hr; have := (h3 hr).1; omega
    · intro hr; exact absurd hr (by simp)
  · exact ⟨n, hev, h1, h2, h3, h4⟩

theorem handoff_run_inv (schedule : List HandoffAction) :
    ∀ (s : HandoffState) (n : Nat), handoff_inv s n →
      ∃ m, handoff_inv (handoff_run s schedule) m := by
  induction schedule with
  | nil =>
    intro s n h
    exact ⟨n, h⟩
  | cons a rest ih =>
    intro s n h
    obtain ⟨m, hm⟩ := handoff_step_inv s a n h
    exact ih (handoff_step s a) m hm

theorem handoff_init_inv : handoff_inv handoff_init 0 := by
  refine ⟨rfl, ?_, ?_, ?_, ?_⟩ <;> simp [handoff_init]

theorem ping_pong_length (n : Nat) : (ping_pong n).length = n := by
  simp [ping_pong]

theorem ping_pong_index (n i : Nat) (e : HandoffEvent) (h : (ping_pong n)[i]? = some e) :
    i < n ∧ e = (if i % 2 = 0 then HandoffEvent.sampler else HandoffEvent.control) := by
  have hlt : i < n := by
    have := (List.getElem?_eq_some.mp h).1
    rwa [ping_pong_length] at this
  refine ⟨hlt, ?_⟩
  simp only [ping_pong, List.getElem?_map, List.getElem?_range hlt, Option.map_some',
    Option.some.injEq] at h
  exact h.symm

theorem handoff_round_run (s : HandoffState) (n : Nat)
    (hadc : s.g_ADCSemaphore = true) (hctl : s.g_ControlSemaphore = false)
    (hrig : s.rigTask = .waiting) (hctrl : s.control_task = .waiting)
    (hev : s.events = ping_pong (2 * n)) :
    handoff_run s handoff_round = { s with events := ping_pong (2 * (n + 1)) } := by
  obtain ⟨adc, ctl, rig, ctrl, events⟩ := s
  simp only at hadc hctl hrig hctrl hev
  subst hadc hctl hrig hctrl hev
  have h2 : ping_pong (2 * (n + 1))
      = ping_pong (2 * n) ++ [HandoffEvent.sampler] ++ [HandoffEvent.control] := by
    have e1 : 2 * (n + 1) = 2 * n + 1 + 1 := by ring
    have p0 : (2 * n) % 2 = 0 := by omega
    have p1 : ¬ (2 * n + 1) % 2 = 0 := by omega
    rw [e1, ping_pong_succ, ping_pong_succ]
    simp only [p0, p1, if_true, if_false]
  simp [handoff_run, handoff_round, handoff_step, h2]

theorem handoff_rounds_run (k : Nat) :
    handoff_run handoff_init (List.replicate k handoff_round).flatten
      = { handoff_init with events := ping_pong (2 * k) } := by
  induction k with
  | zero => rfl
  | succ k ih =>
    have happ : (List.replicate (k + 1) handoff_round).flatten
        = (List.replicate k handoff_round).flatten ++ handoff_round := by
      rw [List.replicate_succ', List.flatten_append]
      simp
    rw [happ]
    unfold handoff_run at ih ⊢
    rw [List.foldl_append, ih]
    exact handoff_round_run _ k rfl rfl rfl rfl rfl

theorem ping_pong_at (n i : Nat) (h : i < n) :
    (ping_pong n)[i]?
      = some (if i % 2 = 0 then HandoffEvent.sampler else HandoffEvent.control) := by
  simp only [ping_pong, List.getElem?_map, List.getElem?_range h, Option.map_some']

/-- C12: strict ping-pong handoff. From the initial state (`g_ADCSemaphore`
available, `g_ControlSemaphore` not) and under every schedule of the actions of
the two tasks, the record of body runs is sampler, control, sampler, ...: it
starts with a Sampler run, the run at an even position is a Sampler run and the
run at an odd position a Control run, no two consecutive runs are equal, and
the two semaphores are never available together. The undisturbed schedule of
`k` rounds (e.g. 1000) records exactly `2 * k` alternating runs. -/
theorem handoff_strict_ping_pong (schedule : List HandoffAction) (k : Nat) :
    (∃ n, (handoff_run handoff_init schedule).events = ping_pong n)
    ∧ (∀ i e, (handoff_run handoff_init schedule).events[i]? = some e →
        e = (if i % 2 = 0 then HandoffEvent.sampler else HandoffEvent.control))
    ∧ (∀ i, i + 1 < (handoff_run handoff_init schedule).events.length →
        (handoff_run handoff_init schedule).events[i]?
          ≠ (handoff_run handoff_init schedule).events[i + 1]?)
    ∧ ¬ ((handoff_run handoff_init schedule).g_ADCSemaphore = true
          ∧ (handoff_run handoff_init schedule).g_ControlSemaphore = true)
    ∧ (handoff_run handoff_init (List.replicate k handoff_round).flatten).events
        = ping_pong (2 * k)
    ∧ (ping_pong (2 * k)).length = 2 * k
    ∧ ping_pong 4
        = [HandoffEvent.sampler, HandoffEvent.control, HandoffEvent.sampler,
           HandoffEvent.control] := by
  obtain ⟨n, hev, h1, -, -, -⟩ := handoff_run_inv schedule handoff_init 0 handoff_init_inv
  refine ⟨⟨n, hev⟩, ?_, ?_, ?_, ?_, ping_pong_length _, by decide⟩
  · intro i e hie
    rw [hev] at hie
    exact (ping_pong_index n i e hie).2
  · intro i hi
    rw [hev, ping_pong_length] at hi
    rw [hev, ping_pong_at n i (by omega), ping_pong_at n (i + 1) hi]
    intro heq
    have heq2 := Option.some.inj heq
    by_cases hp : i % 2 = 0
    · have hq : ¬ (i + 1) % 2 = 0 := by omega
      simp only [hp, hq, if_true, if_false] at heq2
      exact absurd heq2 (by decide)
    · have hq : (i + 1) % 2 = 0 := by omega
      simp only [hp, hq, if_true, if_false] at heq2
      exact absurd heq2 (by decide)
  · rintro ⟨ha, hc⟩
    have := (h1 ha).2.1
    rw [this] at hc
    exact absurd hc (by decide)
  · rw [handoff_rounds_run k]

theorem wrap_i32_congr (a b : Int) (h : a % 4294967296 = b % 4294967296) :
    wrap_i32 a = wrap_i32 b := by
  unfold wrap_i32
  omega

theorem wrap_i32_of_range (a : Int) (h : -2147483648 ≤ a ∧ a < 2147483648) :
    wrap_i32 a = a := by
  unfold wrap_i32
  omega

theorem u32_mul_add_eq (kept e : Int) (dt : Nat) :
    u32_to_i32 ((i32_to_u32 kept + (i32_to_u32 e * dt) % 4294967296) % 4294967296)
      = wrap_i32 (kept + e * dt) := by
  unfold u32_to_i32
  apply wrap_i32_congr
  unfold i32_to_u32
  have hk : (0 : Int) ≤ kept % 4294967296 := Int.emod_nonneg _ (by decide)
  have he : (0 : Int) ≤ e % 4294967296 := Int.emod_nonneg _ (by decide)
  push_cast
  rw [Int.toNat_of_nonneg hk, Int.toNat_of_nonneg he]
  rw [Int.emod_emod_of_dvd _ (dvd_refl _), Int.add_emod, Int.emod_emod_of_dvd _ (dvd_refl _),
    Int.emod_emod_of_dvd _ (dvd_refl _), Int.mul_emod, Int.emod_emod_of_dvd _ (dvd_refl _),
    ← Int.mul_emod, ← Int.add_emod]

theorem calc_intergral_gain_total (A e : Int) (dt : Nat) :
    (calc_intergral_gain A e dt).1
      = wrap_i32 ((if c_abs e < 20 then 0 else A) + e * dt) := by
  unfold calc_intergral_gain
  simp only
  exact u32_mul_add_eq _ e dt

theorem c_abs_eq_abs (x : Int) (hx : -2147483648 < x) (hx2 : x < 2147483648) :
    c_abs x = |x| := by
  unfold c_abs wrap_i32
  split_ifs with hneg
  · rw [abs_of_neg hneg]
    omega
  · rw [abs_of_nonneg (by omega)]

/-- C13: deadband reset of the height integral. For every prior accumulator
`A`, every error `e` (an `int32_t` other than `INT32_MIN`) and every time step
`dt`: when `|e| < 20` the accumulator left by `calc_intergral_gain` is `e * dt`
whatever `A` was, and when `|e| >= 20` it is `A + e * dt`; both as 32-bit
values, and exactly so when the value fits in an `int32_t` (as `e * dt` does
for `|e| < 20` and every time step up to 53687, the largest the timer
conversion yields). -/
theorem calc_intergral_gain_deadband (A B e : Int) (dt : Nat)
    (he : -2147483648 < e ∧ e < 2147483648) :
    (|e| < 20 → (calc_intergral_gain A e dt).1 = wrap_i32 (e * dt))
    ∧ (|e| < 20 → (calc_intergral_gain A e dt).1 = (calc_intergral_gain B e dt).1)
    ∧ (|e| < 20 → dt ≤ 53687 → (calc_intergral_gain A e dt).1 = e * dt)
    ∧ (20 ≤ |e| → (calc_intergral_gain A e dt).1 = wrap_i32 (A + e * dt))
    ∧ (20 ≤ |e| → -2147483648 ≤ A + e * dt → A + e * dt < 2147483648 →
        (calc_intergral_gain A e dt).1 = A + e * dt) := by
  have habs := c_abs_eq_abs e he.1 he.2
  have hsmall : |e| < 20 → ∀ X : Int, (calc_intergral_gain X e dt).1 = wrap_i32 (e * dt) := by
    intro h X
    rw [calc_intergral_gain_total, habs, if_pos h, zero_add]
  have hlarge : 20 ≤ |e| → (calc_intergral_gain A e dt).1 = wrap_i32 (A + e * dt) := by
    intro h
    rw [calc_intergral_gain_total, habs, if_neg (not_lt.mpr h)]
  refine ⟨fun h => hsmall h A, fun h => by rw [hsmall h A, hsmall h B], ?_, hlarge, ?_⟩
  · intro h hdt
    rw [hsmall h A]
    apply wrap_i32_of_range
    obtain ⟨h1, h2⟩ := abs_lt.mp h
    have hdt2 : (dt : Int) ≤ 53687 := by exact_mod_cast hdt
    have hdt0 : (0 : Int) ≤ dt := Int.ofNat_nonneg _
    constructor <;> nlinarith
  · intro h h1 h2
    rw [hlarge h]
    exact wrap_i32_of_range _ ⟨h1, h2⟩

/-- Witness for C13: a large prior accumulator 5000000 collapses to `19 * 80`
inside the deadband and grows to `5000000 - 20 * 80` outside of it. -/
theorem calc_intergral_gain_deadband_witness :
    (calc_intergral_gain 5000000 19 80).1 = 19 * 80
    ∧ (calc_intergral_gain 5000000 19 80).1 = (calc_intergral_gain 0 19 80).1
    ∧ (calc_intergral_gain 5000000 (-20) 80).1 = 5000000 + (-20) * 80 :=
  ⟨(calc_intergral_gain_deadband 5000000 0 19 80 (by decide)).2.2.1 (by decide) (by decide),
   (calc_intergral_gain_deadband 5000000 0 19 80 (by decide)).2.1 (by decide),
   (calc_intergral_gain_deadband 5000000 0 (-20) 80 (by decide)).2.2.2.2
     (by decide) (by decide) (by decide)⟩

theorem convert_to_height_eq (adc_val ground : Nat)
    (ha : adc_val < 4294967296) (hg : ground < 4294967296) :
    convert_to_height adc_val ground = (if ground > adc_val then ground - adc_val else 0) := by
  unfold convert_to_height
  split_ifs <;> omega

theorem convert_to_height_lt (adc_val ground : Nat)
    (ha : adc_val < 4294967296) (hg : ground < 4294967296) :
    convert_to_height adc_val ground < 4294967296 := by
  rw [convert_to_height_eq adc_val ground ha hg]
  split_ifs <;> omega

/-- C14: for all unsigned 32-bit inputs `convert_to_height adc_val ground` is
`ground - adc_val` when `ground > adc_val` and 0 otherwise; as an integer it is
`max 0 (ground - adc_val)`, so it is never negative, and it never exceeds
`ground`, so the unsigned subtraction never wraps around. -/
theorem convert_to_height_clamps_at_zero (adc_val ground : Nat)
    (ha : adc_val < 4294967296) (hg : ground < 4294967296) :
    convert_to_height adc_val ground = (if ground > adc_val then ground - adc_val else 0)
    ∧ (convert_to_height adc_val ground : Int) = max 0 ((ground : Int) - (adc_val : Int))
    ∧ convert_to_height adc_val ground ≤ ground
    ∧ convert_to_height adc_val ground < 4294967296 := by
  have h := convert_to_height_eq adc_val ground ha hg
  refine ⟨h, ?_, ?_, ?_⟩
  · rw [h]
    split_ifs <;> omega
  · rw [h]
    split_ifs <;> omega
  · rw [h]
    split_ifs <;> omega

/-- Witness for C14: the extreme inputs `adc_val = 4294967295`, `ground = 0`,
where a wrapping subtraction would return 1. -/
theorem convert_to_height_clamps_at_zero_witness :
    convert_to_height 4294967295 0 = (if 0 > 4294967295 then 0 - 4294967295 else 0)
    ∧ convert_to_height 4294967295 0 ≤ 0 :=
  have h := convert_to_height_clamps_at_zero 4294967295 0 (by decide) (by decide)
  ⟨h.1, h.2.2.1⟩

theorem heights_array_entry (i : Nat) (hi : i ≤ 10) : heights_array[i]? = some (100 * i) := by
  interval_cases i <;> rfl

theorem height_error_eq (i curr_Meas_height ground_ADC : Nat) (hi : i ≤ 10)
    (hm : curr_Meas_height < 4294967296) (hg : ground_ADC < 4294967296) :
    height_error i curr_Meas_height ground_ADC
      = some (wrap_i32
          ((100 * i : Int) - (convert_to_height curr_Meas_height ground_ADC : Int))) := by
  have ht := heights_array_entry i hi
  have hh := convert_to_height_lt curr_Meas_height ground_ADC hm hg
  unfold height_error
  rw [ht]
  simp only [Option.some.injEq]
  unfold u32_to_i32
  apply wrap_i32_congr
  omega

/-- C15: for every target height index `i` in 0..10, `heights_array[i] = 100 * i`
and the height error of the control loop is
`100 * i - convert_to_height(measured, ground)` read as a signed 32-bit integer;
it is that difference exactly whenever the converted height is below 2^31 (as
for every 12-bit ADC value). -/
theorem height_error_from_table (i curr_Meas_height ground_ADC : Nat) (hi : i ≤ 10)
    (hm : curr_Meas_height < 4294967296) (hg : ground_ADC < 4294967296) :
    heights_array[i]? = some (100 * i)
    ∧ height_error i curr_Meas_height ground_ADC
        = some (wrap_i32
            ((100 * i : Int) - (convert_to_height curr_Meas_height ground_ADC : Int)))
    ∧ (convert_to_height curr_Meas_height ground_ADC < 2147483648 →
        height_error i curr_Meas_height ground_ADC
          = some ((100 * i : Int) - (convert_to_height curr_Meas_height ground_ADC : Int))) := by
  have ht := heights_array_entry i hi
  have herr := height_error_eq i curr_Meas_height ground_ADC hi hm hg
  refine ⟨ht, herr, ?_⟩
  intro hsmall
  rw [herr, wrap_i32_of_range _ (by omega)]

/-- Witness for C15: target index 10, measured 1000, ground 1500. -/
theorem height_error_from_table_witness :
    heights_array[10]? = some (100 * 10)
    ∧ height_error 10 1000 1500
        = some ((100 * (10 : Nat) : Int) - (convert_to_height 1000 1500 : Int)) :=
  have h := height_error_from_table 10 1000 1500 (by decide) (by decide) (by decide)
  ⟨h.1, h.2.2 (by decide)⟩

/-- C17 (evaluation at the failing input): with target index 0, measured 1000
and ground 1500 the rig is 500 units above ground, the height error is -500,
not within 10 of zero, and yet the base offset of the cycle is 0, not 50: the
test `error < 10` cannot fail at target index 0, where the error is never
positive. Likewise at 100 units above ground (measured 1400): the error is -100,
the offset is 0 and the cycle publishes duty 0, where the offset 50 with the
same three terms would publish 40. -/
theorem height_offset_zero_for_large_negative_error :
    height_error 0 1000 1500 = some (-500)
    ∧ ¬ (|(-500 : Int)| < 10)
    ∧ height_offset 0 (-500) = 0
    ∧ control_height_offset 0 1000 1500 = some 0
    ∧ height_error 0 1400 1500 = some (-100)
    ∧ ¬ (|(-100 : Int)| < 10)
    ∧ control_height_offset 0 1400 1500 = some 0
    ∧ control_height_cycle { last_error := 0, total_intergral := 0 } 0 1400 1500 1
        = some ({ last_error := -100, total_intergral := -100 }, 0)
    ∧ calc_proportional_gain (-100) = -10
    ∧ (calc_intergral_gain 0 (-100) 1).2 = 0
    ∧ height_pwm_published 50 (calc_proportional_gain (-100)) 0
        (calc_intergral_gain 0 (-100) 1).2 = 40 := by
  refine ⟨by decide, ?_, by decide, by decide, by decide, ?_, by decide, by decide!,
    by decide!, by decide!, by decide!⟩
  · norm_num
  · norm_num

theorem run_calibrate_append (st : CalibState) (pre post : List (Nat × Nat)) :
    run_calibrate st (pre ++ post) = run_calibrate (run_calibrate st pre) post := by
  unfold run_calibrate
  rw [List.foldl_append]

theorem run_calibrate_frozen (cycles : List (Nat × Nat)) :
    ∀ st : CalibState, st.first = false → run_calibrate st cycles = st := by
  induction cycles with
  | nil =>
    intro st _
    rfl
  | cons c rest ih =>
    intro st hst
    have hstep : calibrate st c.1 c.2 = st := by
      unfold calibrate
      simp [hst]
    have hrun : run_calibrate st (c :: rest) = run_calibrate (calibrate st c.1 c.2) rest := rfl
    rw [hrun, hstep]
    exact ih st hst

theorem run_calibrate_first_cleared (cycles : List (Nat × Nat)) :
    ∀ st : CalibState, (∃ c ∈ cycles, 0 < c.1) → (run_calibrate st cycles).first = false := by
  induction cycles with
  | nil =>
    intro st h
    obtain ⟨c, hc, -⟩ := h
    exact absurd hc (List.not_mem_nil c)
  | cons c rest ih =>
    intro st h
    have hrun : run_calibrate st (c :: rest) = run_calibrate (calibrate st c.1 c.2) rest := rfl
    rw [hrun]
    by_cases hfirst : (calibrate st c.1 c.2).first = false
    · rw [run_calibrate_frozen rest _ hfirst]
      exact hfirst
    · apply ih
      obtain ⟨d, hd, hpos⟩ := h
      rcases List.mem_cons.mp hd with hdc | hdr
      · exfalso
        apply hfirst
        subst hdc
        unfold calibrate
        split_ifs with h1
        · rfl
        · simpa using h1
      · exact ⟨d, hdr, hpos⟩

/-- C18 (as stated, refuted): two cycles with target index 0 and measured
heights 1000, then 1200: the first captures ground 1000, and the second, a
later cycle of the same session, changes it to 1200. -/
theorem ground_recaptured_while_target_zero :
    (run_calibrate calib_init [(0, 1000)]).ground_ADC = some 1000
    ∧ (run_calibrate calib_init [(0, 1000), (0, 1200)]).ground_ADC = some 1200
    ∧ (run_calibrate calib_init [(0, 1000), (0, 1200)]).ground_ADC
        ≠ (run_calibrate calib_init [(0, 1000)]).ground_ADC := by
  decide

/-- C18 (amended): the calibration ground is frozen by the first cycle whose
target height index is nonzero: for every sequence of control cycles, once such
a cycle has occurred no later cycle changes the ground (nor the flag). Until
then every cycle, its target index being zero, stores its measured height as
the ground. -/
theorem ground_frozen_after_first_nonzero_target (pre post : List (Nat × Nat))
    (curr_Meas_height : Nat) (h : ∃ c ∈ pre, 0 < c.1) :
    run_calibrate calib_init (pre ++ post) = run_calibrate calib_init pre
    ∧ (run_calibrate calib_init (pre ++ post)).ground_ADC
        = (run_calibrate calib_init pre).ground_ADC
    ∧ ((∀ c ∈ post, c.1 = 0) →
        (run_calibrate calib_init (post ++ [(0, curr_Meas_height)])).ground_ADC
          = some curr_Meas_height) := by
  have hfrozen : run_calibrate calib_init (pre ++ post) = run_calibrate calib_init pre := by
    rw [run_calibrate_append]
    exact run_calibrate_frozen post _ (run_calibrate_first_cleared pre calib_init h)
  refine ⟨hfrozen, by rw [hfrozen], ?_⟩
  intro hzero
  have hfirst : ∀ (l : List (Nat × Nat)) (st : CalibState), st.first = true →
      (∀ c ∈ l, c.1 = 0) → (run_calibrate st l).first = true := by
    intro l
    induction l with
    | nil =>
      intro st hst _
      exact hst
    | cons c rest ih =>
      intro st hst hall
      have hc : c.1 = 0 := hall c (List.mem_cons_self _ _)
      have hrun : run_calibrate st (c :: rest)
          = run_calibrate (calibrate st c.1 c.2) rest := rfl
      rw [hrun]
      apply ih
      · unfold calibrate
        simp [hst, hc]
      · exact fun d hd => hall d (List.mem_cons_of_mem _ hd)
  have hf := hfirst post calib_init rfl hzero
  rw [run_calibrate_append]
  show (calibrate (run_calibrate calib_init post) 0 curr_Meas_height).ground_ADC
    = some curr_Meas_height
  unfold calibrate
  simp [hf]

/-- Witness for C18 (amended): the ground follows the measurements 1000, 1200
while the target is zero, is frozen by the cycle with target index 2, and the
later cycle with target index 0 and measurement 800 leaves it at 1200. -/
theorem ground_frozen_after_first_nonzero_target_witness :
    run_calibrate calib_init ([(0, 1000), (0, 1200), (2, 900)] ++ [(0, 800)])
      = run_calibrate calib_init [(0, 1000), (0, 1200), (2, 900)]
    ∧ (run_calibrate calib_init [(0, 1000), (0, 1200), (2, 900), (0, 800)]).ground_ADC
        = some 1200 :=
  ⟨(ground_frozen_after_first_nonzero_target [(0, 1000), (0, 1200), (2, 900)] [(0, 800)] 0
      ⟨(2, 900), by decide, by decide⟩).1,
   by decide⟩

/-- C19: if the target height index is already nonzero on the first control
cycle, the calibration flag is cleared with no ground stored, and after any
later cycles, also cycles whose target index is 0 again, the ground is still
unassigned: calibration never occurs. -/
theorem calibration_never_occurs (curr_Targ_height curr_Meas_height : Nat)
    (later : List (Nat × Nat)) (h : 0 < curr_Targ_height) :
    calibrate calib_init curr_Targ_height curr_Meas_height
      = { first := false, ground_ADC := none }
    ∧ (run_calibrate calib_init ((curr_Targ_height, curr_Meas_height) :: later)).ground_ADC
        = none
    ∧ (run_calibrate calib_init ((curr_Targ_height, curr_Meas_height) :: later)).first
        = false := by
  have hstep : calibrate calib_init curr_Targ_height curr_Meas_height
      = { first := false, ground_ADC := none } := by
    unfold calibrate calib_init
    simp [h]
  have hrun : run_calibrate calib_init ((curr_Targ_height, curr_Meas_height) :: later)
      = run_calibrate (calibrate calib_init curr_Targ_height curr_Meas_height) later := rfl
  rw [hrun, hstep, run_calibrate_frozen later _ rfl]
  exact ⟨rfl, rfl, rfl⟩

/-- Witness for C19: first cycle with target index 3, then two cycles with
target index 0. -/
theorem calibration_never_occurs_witness :
    (run_calibrate calib_init ((3, 1000) :: [(0, 1200), (0, 1300)])).ground_ADC = none
    ∧ (run_calibrate calib_init ((3, 1000) :: [(0, 1200), (0, 1300)])).first = false :=
  (calibration_never_occurs 3 1000 [(0, 1200), (0, 1300)] (by decide)).2

theorem run_send_snoc (s : SendState) (vals : List Nat) (v : Nat) :
    run_send s (vals ++ [v]) = sendMeasHeightToBOTH (run_send s vals) v := by
  unfold run_send
  rw [List.foldl_append]
  rfl

theorem run_send_counts (vals : List Nat) :
    (run_send send_init vals).g_MeasHeightControlQueue = vals
    ∧ (run_send send_init vals).g_MeasHeightDisplayQueue.length = vals.length / 5
    ∧ (run_send send_init vals).count = ((vals.length % 5 : Nat) : Int) := by
  induction vals using List.reverseRecOn with
  | nil => exact ⟨rfl, rfl, rfl⟩
  | append_singleton vals v ih =>
    obtain ⟨hc, hd, hn⟩ := ih
    rw [run_send_snoc]
    unfold sendMeasHeightToBOTH
    simp only [List.length_append, List.length_singleton]
    split_ifs with hgt
    · rw [hn] at hgt
      refine ⟨by simp [hc], ?_, ?_⟩
      · simp only [List.length_append, List.length_singleton, hd]
        omega
      · simp only
        omega
    · rw [hn] at hgt
      refine ⟨by simp [hc], ?_, ?_⟩
      · simp only [hd]
        omega
      · simp only [hn]
        unfold wrap_i32
        omega

/-- C20 (as stated, refuted): after one call of `sendMeasHeightToBOTH` one value
has been sent to the control queue and none to the display queue; after four
calls still none, after five calls one. -/
theorem display_queue_skips_calls :
    (run_send send_init [7]).g_MeasHeightControlQueue.length = 1
    ∧ (run_send send_init [7]).g_MeasHeightDisplayQueue.length = 0
    ∧ (run_send send_init [7, 8, 9, 10]).g_MeasHeightDisplayQueue = []
    ∧ (run_send send_init [7, 8, 9, 10, 11]).g_MeasHeightDisplayQueue = [11]
    ∧ (run_send send_init [7]).g_MeasHeightDisplayQueue.length ≠ [7].length := by
  decide

/-- C20 (amended): in every Sampler cycle the filtered height is sent once to
the control queue, and to the display queue in every fifth cycle only: after
`n` calls of `sendMeasHeightToBOTH` exactly the `n` values have been sent to
`g_MeasHeightControlQueue`, in order, and exactly `n / 5` (rounded down) values
to `g_MeasHeightDisplayQueue`, the static `count` being `n % 5`. -/
theorem sendMeasHeightToBOTH_counts (vals : List Nat) :
    (run_send send_init vals).g_MeasHeightControlQueue = vals
    ∧ (run_send send_init vals).g_MeasHeightControlQueue.length = vals.length
    ∧ (run_send send_init vals).g_MeasHeightDisplayQueue.length = vals.length / 5
    ∧ (run_send send_init vals).count = ((vals.length % 5 : Nat) : Int) := by
  obtain ⟨hc, hd, hn⟩ := run_send_counts vals
  exact ⟨hc, by rw [hc], hd, hn⟩

/-- C16 (as stated, refuted): the step from index 11 to index 12 is
`179 - 165 = 14` and the step from index 12 to index 13 is `-165 - 179`, congruent
to 16 modulo 360; neither is congruent to 15. -/
theorem yaws_array_steps_around_179 :
    yaws_array[11]? = some 165
    ∧ yaws_array[12]? = some 179
    ∧ yaws_array[13]? = some (-165)
    ∧ ((179 : Int) - 165) % 360 = 14
    ∧ ((-165 : Int) - 179) % 360 = 16
    ∧ ¬ (∀ i : Fin 24,
          (yaws_array.getD ((i.val + 1) % 24) 0 - yaws_array.getD i.val 0) % 360 = 15) := by
  refine ⟨by decide, by decide, by decide, by decide, by decide, ?_⟩
  intro hall
  exact absurd (hall ⟨11, by decide⟩) (by decide)

/-- C16 (amended): the yaw target table has 24 entries, all in [-165, 179],
going once round the circle: the step from each entry to the next (cyclically)
is congruent to 15 modulo 360, except the two steps at the entry 179 that
stands where 180 would be, which are 14 (index 11 to 12) and 16 (index 12 to
13). -/
theorem yaws_array_steps :
    yaws_array.length = 24
    ∧ (∀ i : Fin 24,
        (yaws_array.getD ((i.val + 1) % 24) 0 - yaws_array.getD i.val 0) % 360
          = (if i.val = 11 then 14 else if i.val = 12 then 16 else 15))
    ∧ (∀ i : Fin 24, -165 ≤ yaws_array.getD i.val 0 ∧ yaws_array.getD i.val 0 ≤ 179)
    ∧ (∀ i : Fin 24, yaws_array[i.val]? = some (yaws_array.getD i.val 0)) := by
  refine ⟨by decide, by decide, by decide, by decide⟩

theorem SwitchTask_step_bounds (s : SwitchState) (polls : ButtonPolls)
    (h : s.ui32Height ≤ 10 ∧ s.ui32Yaw ≤ 23 ∧ ∀ d ∈ s.delivered, d.1 ≤ 10 ∧ d.2 ≤ 23) :
    (SwitchTask_step s polls).ui32Height ≤ 10
    ∧ (SwitchTask_step s polls).ui32Yaw ≤ 23
    ∧ ∀ d ∈ (SwitchTask_step s polls).delivered, d.1 ≤ 10 ∧ d.2 ≤ 23 := by
  obtain ⟨hh, hy, hd⟩ := h
  have hH : (SwitchTask_step s polls).ui32Height ≤ 10 := by
    simp only [SwitchTask_step, press_up, press_down, HEIGHTMAXRANGE]
    split_ifs <;> omega
  have hY : (SwitchTask_step s polls).ui32Yaw ≤ 23 := by
    simp only [SwitchTask_step, press_right, press_left, YAWMAXRANGE]
    split_ifs <;> omega
  refine ⟨hH, hY, ?_⟩
  intro d hmem
  have hdel : (SwitchTask_step s polls).delivered = s.delivered
      ∨ (SwitchTask_step s polls).delivered
          = s.delivered ++ [((SwitchTask_step s polls).ui32Height,
                             (SwitchTask_step s polls).ui32Yaw)] := by
    exact (ite_eq_or_eq _ _ _).symm
  rcases hdel with heq | heq
  · rw [heq] at hmem
    exact hd d hmem
  · rw [heq] at hmem
    rcases List.mem_append.mp hmem with hold | hnew
    · exact hd d hold
    · rw [List.mem_singleton] at hnew
      subst hnew
      exact ⟨hH, hY⟩

theorem run_switch_bounds (inputs : List ButtonPolls) :
    ∀ s : SwitchState,
      (s.ui32Height ≤ 10 ∧ s.ui32Yaw ≤ 23 ∧ ∀ d ∈ s.delivered, d.1 ≤ 10 ∧ d.2 ≤ 23) →
      (run_switch s inputs).ui32Height ≤ 10
      ∧ (run_switch s inputs).ui32Yaw ≤ 23
      ∧ ∀ d ∈ (run_switch s inputs).delivered, d.1 ≤ 10 ∧ d.2 ≤ 23 := by
  induction inputs with
  | nil =>
    intro s h
    exact h
  | cons polls rest ih =>
    intro s h
    exact ih (SwitchTask_step s polls) (SwitchTask_step_bounds s polls h)

/-- C21: for every sequence of loop iterations of `SwitchTask` (any pattern of
polled button states) starting from height index 0 and yaw index 0, every
target height index delivered to the control queue is in 0..10 and every
target yaw index in 0..23, so the lookups `heights_array[..]` and
`yaws_array[..]` of the control loop are in bounds. -/
theorem SwitchTask_delivers_indices_in_bounds (inputs : List ButtonPolls) (d : Nat × Nat)
    (hd : d ∈ (run_switch switch_init inputs).delivered) :
    d.1 ≤ 10 ∧ d.2 ≤ 23
    ∧ d.1 < heights_array.length ∧ d.2 < yaws_array.length
    ∧ (heights_array[d.1]?).isSome = true ∧ (yaws_array[d.2]?).isSome = true
    ∧ (run_switch switch_init inputs).ui32Height ≤ 10
    ∧ (run_switch switch_init inputs).ui32Yaw ≤ 23 := by
  have hinit : switch_init.ui32Height ≤ 10 ∧ switch_init.ui32Yaw ≤ 23
      ∧ ∀ e ∈ switch_init.delivered, e.1 ≤ 10 ∧ e.2 ≤ 23 := by
    refine ⟨by decide, by decide, ?_⟩
    intro e he
    exact absurd he (List.not_mem_nil e)
  obtain ⟨hH, hY, hall⟩ := run_switch_bounds inputs switch_init hinit
  obtain ⟨h1, h2⟩ := hall d hd
  have hl1 : d.1 < heights_array.length := by
    have : heights_array.length = 11 := by decide
    omega
  have hl2 : d.2 < yaws_array.length := by
    have : yaws_array.length = 24 := by decide
    omega
  refine ⟨h1, h2, hl1, hl2, ?_, ?_, hH, hY⟩
  · rw [List.getElem?_eq_getElem hl1]
    rfl
  · rw [List.getElem?_eq_getElem hl2]
    rfl

/-- Witness for C21: eleven up presses and a left press; the last delivery is
height index 10 (saturated) and yaw index 23 (wrapped). -/
theorem SwitchTask_delivers_indices_in_bounds_witness :
    ((10, 23) : Nat × Nat).1 ≤ 10 ∧ ((10, 23) : Nat × Nat).2 ≤ 23 :=
  have h := SwitchTask_delivers_indices_in_bounds
    ((List.replicate 11 [ButtonPolls.mk true false false false,
                         ButtonPolls.mk false false false false]).flatten
      ++ [ButtonPolls.mk false false false true])
    (10, 23) (by decide)
  ⟨h.1, h.2.1⟩

/-- C22: timer wraparound guard. For every timer reading `r` of a control cycle
the `last_time` stored by the cycle is `r` when `r >= 400000000` and the reload
value 1000000000 otherwise, so it is at least 400000000; hence, `last_time`
starting at 1000000000, it is at least 400000000 at the start of every control
cycle, whatever the readings of the earlier cycles. -/
theorem last_time_guard (last_time r : Nat) (readings : List Nat) :
    (control_timer last_time r).2 = (if r ≥ 400000000 then r else 1000000000)
    ∧ 400000000 ≤ (control_timer last_time r).2
    ∧ 400000000 ≤ run_timer 1000000000 readings
    ∧ run_timer 1000000000 (readings ++ [r]) = (if r ≥ 400000000 then r else 1000000000) := by
  have hstep : ∀ l x : Nat,
      (control_timer l x).2 = (if x ≥ 400000000 then x else 1000000000) := by
    intro l x
    simp only [control_timer]
    split_ifs <;> omega
  have hsnoc : ∀ (l : List Nat) (x : Nat),
      run_timer 1000000000 (l ++ [x]) = (if x ≥ 400000000 then x else 1000000000) := by
    intro l x
    unfold run_timer
    rw [List.foldl_append]
    exact hstep _ x
  refine ⟨hstep last_time r, ?_, ?_, hsnoc readings r⟩
  · rw [hstep]
    split_ifs <;> omega
  · induction readings using List.reverseRecOn with
    | nil => decide
    | append_singleton l x _ =>
      rw [hsnoc]
      split_ifs <;> omega

/-- C30: setpoint stepping in `SwitchTask`. For every yaw index `y` in 0..23 a
right press followed by a left press restores `y`, and so does a left press
followed by a right press; right wraps 23 to 0 and left wraps 0 to 23. An up
press at height index 10 leaves 10 and a down press at 0 leaves 0. A loop
iteration in which only the right (up, down, left) button is newly pressed
applies exactly that step. -/
theorem setpoint_stepping (y : Nat) (hy : y ≤ 23) (s : SwitchState)
    (hprev : s.ui8PrevButtonStateUp = false ∧ s.ui8PrevButtonStateRight = false
      ∧ s.ui8PrevButtonStateDown = false ∧ s.ui8PrevButtonStateLeft = false) :
    press_left (press_right y) = y
    ∧ press_right (press_left y) = y
    ∧ press_right 23 = 0
    ∧ press_left 0 = 23
    ∧ press_up 10 = 10
    ∧ press_down 0 = 0
    ∧ (SwitchTask_step s ⟨false, true, false, false⟩).ui32Yaw = press_right s.ui32Yaw
    ∧ (SwitchTask_step s ⟨false, false, false, true⟩).ui32Yaw = press_left s.ui32Yaw
    ∧ (SwitchTask_step s ⟨true, false, false, false⟩).ui32Height = press_up s.ui32Height
    ∧ (SwitchTask_step s ⟨false, false, true, false⟩).ui32Height = press_down s.ui32Height := by
  obtain ⟨hu, hr, hdn, hl⟩ := hprev
  refine ⟨?_, ?_, by decide, by decide, by decide, by decide, ?_, ?_, ?_, ?_⟩
  · simp only [press_left, press_right, YAWMAXRANGE]
    split_ifs <;> omega
  · simp only [press_left, press_right, YAWMAXRANGE]
    split_ifs <;> omega
  · simp [SwitchTask_step, checkButton, hu, hr, hdn, hl]
  · simp [SwitchTask_step, checkButton, hu, hr, hdn, hl]
  · simp [SwitchTask_step, checkButton, hu, hr, hdn, hl]
  · simp [SwitchTask_step, checkButton, hu, hr, hdn, hl]

/-- Witness for C30: yaw index 23 from the initial switch state. -/
theorem setpoint_stepping_witness :
    press_left (press_right 23) = 23
    ∧ press_right (press_left 23) = 23
    ∧ (SwitchTask_step switch_init ⟨false, true, false, false⟩).ui32Yaw
        = press_right switch_init.ui32Yaw :=
  have h := setpoint_stepping 23 (by decide) switch_init ⟨rfl, rfl, rfl, rfl⟩
  ⟨h.1, h.2.1, h.2.2.2.2.2.2.1⟩

theorem ISR_GET_DIRECTION_there_and_back (s : YawState) (pins : PinLevels)
    (h : -2147483648 ≤ s.yaw_counter ∧ s.yaw_counter < 2147483648) :
    (ISR_GET_DIRECTION (ISR_GET_DIRECTION s pins)
        ⟨s.prev_State_A, s.prev_State_B⟩).yaw_counter = s.yaw_counter := by
  obtain ⟨pa, pb, ca, cb, o, c, d⟩ := s
  obtain ⟨a, b⟩ := pins
  simp only at h
  cases pa <;> cases pb <;> cases a <;> cases b <;>
    simp [ISR_GET_DIRECTION, counterYaw, updateDirection, direction_index, Dir_List,
      GPIOPinRead_PHASE_A, GPIOPinRead_PHASE_B, ANTICLOCKWISE, CLOCKWISE, wrap_i32] <;>
    omega

/-- C27: the direction table is antisymmetric: for every pair of two-bit phase
states `p`, `q`, `Dir_List[(p<<2)|q] = -Dir_List[(q<<2)|p]` (the index built by
`updateDirection` being `(p<<2)|q` with `p = prevB<<1|prevA`, `q = curB<<1|curA`);
hence an edge update from `p` to `q` followed by an edge update from `q` back to
`p` leaves the tick counter unchanged. -/
theorem Dir_List_antisymmetric (s : YawState) (pins : PinLevels)
    (h : -2147483648 ≤ s.yaw_counter ∧ s.yaw_counter < 2147483648) :
    (∀ p q : Fin 4,
        Dir_List.getD ((p.val <<< 2) ||| q.val) 0 = -Dir_List.getD ((q.val <<< 2) ||| p.val) 0)
    ∧ (∀ pB pA qB qA : Bool,
        direction_index pB pA qB qA
          = ((((pB.toNat <<< 1) ||| pA.toNat) <<< 2) ||| ((qB.toNat <<< 1) ||| qA.toNat)))
    ∧ (∀ pB pA qB qA : Bool,
        Dir_List.getD (direction_index pB pA qB qA) 0
          = -Dir_List.getD (direction_index qB qA pB pA) 0)
    ∧ (ISR_GET_DIRECTION (ISR_GET_DIRECTION s pins)
        ⟨s.prev_State_A, s.prev_State_B⟩).yaw_counter = s.yaw_counter := by
  refine ⟨by decide, by decide, by decide, ISR_GET_DIRECTION_there_and_back s pins h⟩

/-- Witness for C27: from counter 100 and previous pair 00, an edge to A = 1 and
back. -/
theorem Dir_List_antisymmetric_witness :
    (ISR_GET_DIRECTION (ISR_GET_DIRECTION { yaw_init with yaw_counter := 100 } ⟨true, false⟩)
        ⟨false, false⟩).yaw_counter = 100 :=
  (Dir_List_antisymmetric { yaw_init with yaw_counter := 100 } ⟨true, false⟩ (by decide)).2.2.2

theorem run_cycle_counter (s : YawState)
    (hprev : s.prev_State_A = false ∧ s.prev_State_B = false)
    (h : -2147483644 ≤ s.yaw_counter ∧ s.yaw_counter < 2147483644) :
    (run_edges s clockwise_cycle).yaw_counter = s.yaw_counter + 4
    ∧ (run_edges s anticlockwise_cycle).yaw_counter = s.yaw_counter - 4 := by
  obtain ⟨pa, pb, ca, cb, o, c, d⟩ := s
  obtain ⟨h1, h2⟩ := hprev
  simp only at h h1 h2
  subst h1 h2
  constructor <;>
    simp [run_edges, clockwise_cycle, anticlockwise_cycle, ISR_GET_DIRECTION, counterYaw,
      updateDirection, direction_index, Dir_List, GPIOPinRead_PHASE_A, GPIOPinRead_PHASE_B,
      ANTICLOCKWISE, CLOCKWISE, wrap_i32] <;>
    omega

/-- C28: the direction table is a well-formed quadrature table: the entry
`Dir_List[(p<<2)|q]` is 0 exactly when the phase pairs `p`, `q` are equal or
differ in both bits, and is +1 or -1 exactly when they differ in one bit. The
four transitions of the Gray cycle 00, 01, 11, 10, 00 (bits B, A) all yield the
same nonzero value (-1, `CLOCKWISE`), so one full cycle moves the tick counter
by exactly 4 ticks in one direction (up), and the reverse cycle by 4 ticks in
the other. -/
theorem Dir_List_well_formed (s : YawState)
    (hprev : s.prev_State_A = false ∧ s.prev_State_B = false)
    (h : -2147483644 ≤ s.yaw_counter ∧ s.yaw_counter < 2147483644) :
    (∀ p q : Fin 4,
        (Dir_List.getD ((p.val <<< 2) ||| q.val) 0 = 0
          ↔ (p = q ∨ p.val ^^^ q.val = 3)))
    ∧ (∀ p q : Fin 4,
        ((Dir_List.getD ((p.val <<< 2) ||| q.val) 0 = 1
            ∨ Dir_List.getD ((p.val <<< 2) ||| q.val) 0 = -1)
          ↔ (p.val ^^^ q.val = 1 ∨ p.val ^^^ q.val = 2)))
    ∧ Dir_List.getD ((0 <<< 2) ||| 1) 0 = CLOCKWISE
    ∧ Dir_List.getD ((1 <<< 2) ||| 3) 0 = CLOCKWISE
    ∧ Dir_List.getD ((3 <<< 2) ||| 2) 0 = CLOCKWISE
    ∧ Dir_List.getD ((2 <<< 2) ||| 0) 0 = CLOCKWISE
    ∧ CLOCKWISE ≠ 0
    ∧ (run_edges s clockwise_cycle).yaw_counter = s.yaw_counter + 4
    ∧ (run_edges s anticlockwise_cycle).yaw_counter = s.yaw_counter - 4 := by
  obtain ⟨hc, ha⟩ := run_cycle_counter s hprev h
  refine ⟨by decide, by decide, by decide, by decide, by decide, by decide, by decide, hc, ha⟩

/-- Witness for C28: one full cycle from the initial decoder state. -/
theorem Dir_List_well_formed_witness :
    (run_edges yaw_init clockwise_cycle).yaw_counter = yaw_init.yaw_counter + 4
    ∧ (run_edges yaw_init anticlockwise_cycle).yaw_counter = yaw_init.yaw_counter - 4 :=
  have h := Dir_List_well_formed yaw_init ⟨rfl, rfl⟩ (by decide)
  ⟨h.2.2.2.2.2.2.2.1, h.2.2.2.2.2.2.2.2⟩

theorem window_sum_five (reads : Nat → Nat) :
    window_sum reads 5 = reads 0 + reads 1 + reads 2 + reads 3 + reads 4 := by
  have h0 : window_sum reads 0 = 0 := rfl
  rw [show (5 : Nat) = 0 + 1 + 1 + 1 + 1 + 1 from rfl]
  simp only [window_sum_succ, h0]
  simp

theorem window_sum_ten (reads : Nat → Nat) :
    window_sum reads 10
      = reads 0 + reads 1 + reads 2 + reads 3 + reads 4
        + reads 5 + reads 6 + reads 7 + reads 8 + reads 9 := by
  have h0 : window_sum reads 0 = 0 := rfl
  rw [show (10 : Nat) = 0 + 1 + 1 + 1 + 1 + 1 + 1 + 1 + 1 + 1 + 1 from rfl]
  simp only [window_sum_succ, h0]
  simp

theorem foldl_min_le (l : List Nat) :
    ∀ init : Nat, l.foldl min init ≤ init ∧ ∀ x ∈ l, l.foldl min init ≤ x := by
  induction l with
  | nil =>
    intro init
    exact ⟨le_refl _, fun x hx => absurd hx (List.not_mem_nil x)⟩
  | cons a t ih =>
    intro init
    obtain ⟨h1, h2⟩ := ih (min init a)
    have hfold : (a :: t).foldl min init = t.foldl min (min init a) := rfl
    rw [hfold]
    refine ⟨le_trans h1 (min_le_left _ _), ?_⟩
    intro x hx
    rcases List.mem_cons.mp hx with hxa | hxt
    · rw [hxa]
      exact le_trans h1 (min_le_right _ _)
    · exact h2 x hxt

theorem le_foldl_max (l : List Nat) :
    ∀ init : Nat, init ≤ l.foldl max init ∧ ∀ x ∈ l, x ≤ l.foldl max init := by
  induction l with
  | nil =>
    intro init
    exact ⟨le_refl _, fun x hx => absurd hx (List.not_mem_nil x)⟩
  | cons a t ih =>
    intro init
    obtain ⟨h1, h2⟩ := ih (max init a)
    have hfold : (a :: t).foldl max init = t.foldl max (max init a) := rfl
    rw [hfold]
    refine ⟨le_trans (le_max_left _ _) h1, ?_⟩
    intro x hx
    rcases List.mem_cons.mp hx with hxa | hxt
    · rw [hxa]
      exact le_trans (le_max_right _ _) h1
    · exact h2 x hxt

theorem window_min_max (reads : Nat → Nat) (n i : Nat) (hi : i < n) :
    window_min reads n ≤ reads i ∧ reads i ≤ window_max reads n := by
  have hmem : reads i ∈ (List.range n).map reads :=
    List.mem_map.mpr ⟨i, List.mem_range.mpr hi, rfl⟩
  exact ⟨(foldl_min_le _ (reads 0)).2 _ hmem, (le_foldl_max _ (reads 0)).2 _ hmem⟩

/-- C29: for every window of samples in [0, 4095] the mean returned by
`meanAltiduteADC` (capacity 5) and by `readAverageCircBuf` (capacity 10) lies
between the smallest and the largest sample of the window; a window whose
entries all equal `v` has mean `v`; and `2 * sum + capacity` stays far below
2^31, so no 32-bit overflow occurs. -/
theorem mean_between_min_and_max (reads reads10 : Nat → Nat) (v : Nat)
    (h : ∀ i < 5, reads i ≤ 4095) (h10 : ∀ i < 10, reads10 i ≤ 4095) (hv : v ≤ 4095) :
    (∃ m, meanAltiduteADC 5 reads = some m
        ∧ window_min reads 5 ≤ m ∧ m ≤ window_max reads 5)
    ∧ window_min reads10 10 ≤ readAverageCircBuf reads10
    ∧ readAverageCircBuf reads10 ≤ window_max reads10 10
    ∧ meanAltiduteADC 5 (fun _ => v) = some v
    ∧ readAverageCircBuf (fun _ => v) = v
    ∧ 2 * window_sum reads 5 + 5 ≤ 40955
    ∧ 2 * window_sum reads10 10 + 10 ≤ 81910 := by
  have s5 := window_sum_five reads
  have s10 := window_sum_ten reads10
  have b0 := h 0 (by decide)
  have b1 := h 1 (by decide)
  have b2 := h 2 (by decide)
  have b3 := h 3 (by decide)
  have b4 := h 4 (by decide)
  have c0 := h10 0 (by decide)
  have c1 := h10 1 (by decide)
  have c2 := h10 2 (by decide)
  have c3 := h10 3 (by decide)
  have c4 := h10 4 (by decide)
  have c5 := h10 5 (by decide)
  have c6 := h10 6 (by decide)
  have c7 := h10 7 (by decide)
  have c8 := h10 8 (by decide)
  have c9 := h10 9 (by decide)
  have hm := meanAltiduteADC_eq 5 reads (by decide) (by omega)
  have hr := readAverageCircBuf_eq reads10 (by omega)
  have m0 := window_min_max reads 5 0 (by decide)
  have m1 := window_min_max reads 5 1 (by decide)
  have m2 := window_min_max reads 5 2 (by decide)
  have m3 := window_min_max reads 5 3 (by decide)
  have m4 := window_min_max reads 5 4 (by decide)
  have n0 := window_min_max reads10 10 0 (by decide)
  have n1 := window_min_max reads10 10 1 (by decide)
  have n2 := window_min_max reads10 10 2 (by decide)
  have n3 := window_min_max reads10 10 3 (by decide)
  have n4 := window_min_max reads10 10 4 (by decide)
  have n5 := window_min_max reads10 10 5 (by decide)
  have n6 := window_min_max reads10 10 6 (by decide)
  have n7 := window_min_max reads10 10 7 (by decide)
  have n8 := window_min_max reads10 10 8 (by decide)
  have n9 := window_min_max reads10 10 9 (by decide)
  have hv5 : window_sum (fun _ => v) 5 = 5 * v := by
    rw [window_sum_five]
    omega
  have hv10 : window_sum (fun _ => v) 10 = 10 * v := by
    rw [window_sum_ten]
    omega
  refine ⟨⟨_, hm, ?_, ?_⟩, ?_, ?_, ?_, ?_, by omega, by omega⟩
  · omega
  · omega
  · rw [hr]
    omega
  · rw [hr]
    omega
  · rw [meanAltiduteADC_eq 5 (fun _ => v) (by decide) (by rw [hv5]; omega), hv5]
    congr 1
    omega
  · rw [readAverageCircBuf_eq (fun _ => v) (by rw [hv10]; omega), hv10]
    omega

/-- Witness for C29: the window 10, 20, 30, 40, 50 (mean 30 between 10 and 50)
and a constant window of 4095. -/
theorem mean_between_min_and_max_witness :
    (∃ m, meanAltiduteADC 5 (window_of [10, 20, 30, 40, 50]) = some m
        ∧ window_min (window_of [10, 20, 30, 40, 50]) 5 ≤ m
        ∧ m ≤ window_max (window_of [10, 20, 30, 40, 50]) 5)
    ∧ meanAltiduteADC 5 (fun _ => 4095) = some 4095
    ∧ readAverageCircBuf (fun _ => 4095) = 4095 :=
  have h := mean_between_min_and_max (window_of [10, 20, 30, 40, 50]) (fun _ => 4095) 4095
    (by decide) (by decide) (by decide)
  ⟨h.1, h.2.2.2.1, h.2.2.2.2.1⟩

/-- C25: when the target height index is 0 the error test of the parked
condition is redundant: for every measured height and ground in [0, 4095] (and
target index in 0..10) the height error is at most 0 when the index is 0, so
`curr_Targ_height == 0 && error < 10` holds exactly when the index is 0, and the
height and yaw base offsets are 0 and 0 in a cycle with target index 0, 50 and
40 in every other cycle. -/
theorem parked_error_test_redundant (curr_Targ_height curr_Meas_height ground_ADC : Nat)
    (hi : curr_Targ_height ≤ 10) (hm : curr_Meas_height ≤ 4095) (hg : ground_ADC ≤ 4095) :
    ∃ error,
      height_error curr_Targ_height curr_Meas_height ground_ADC = some error
      ∧ (curr_Targ_height = 0 → error ≤ 0)
      ∧ ((curr_Targ_height = 0 ∧ error < 10) ↔ curr_Targ_height = 0)
      ∧ control_height_offset curr_Targ_height curr_Meas_height ground_ADC
          = some (if curr_Targ_height = 0 then 0 else 50)
      ∧ control_yaw_offset curr_Targ_height curr_Meas_height ground_ADC
          = some (if curr_Targ_height = 0 then 0 else 40) := by
  have herr := height_error_eq curr_Targ_height curr_Meas_height ground_ADC hi
    (by omega) (by omega)
  have hconv := convert_to_height_eq curr_Meas_height ground_ADC (by omega) (by omega)
  have hle : convert_to_height curr_Meas_height ground_ADC ≤ 4095 := by
    rw [hconv]
    split_ifs <;> omega
  have hval : wrap_i32
      ((100 * curr_Targ_height : Int) - (convert_to_height curr_Meas_height ground_ADC : Int))
      = (100 * curr_Targ_height : Int)
        - (convert_to_height curr_Meas_height ground_ADC : Int) :=
    wrap_i32_of_range _ (by omega)
  rw [hval] at herr
  have hiff : (curr_Targ_height = 0 ∧
      (100 * curr_Targ_height : Int)
        - (convert_to_height curr_Meas_height ground_ADC : Int) < 10)
      ↔ curr_Targ_height = 0 := by
    constructor
    · exact fun hc => hc.1
    · intro h0
      exact ⟨h0, by omega⟩
  refine ⟨_, herr, by omega, hiff, ?_, ?_⟩
  · unfold control_height_offset height_offset
    rw [herr]
    simp only [hiff]
  · unfold control_yaw_offset yaw_offset
    rw [herr]
    simp only [hiff]

/-- Witness for C25: target index 0 with measured 1000 and ground 1500 (error
-500), where both offsets are 0. -/
theorem parked_error_test_redundant_witness :
    ∃ error,
      height_error 0 1000 1500 = some error
      ∧ ((0 : Nat) = 0 → error ≤ 0)
      ∧ (((0 : Nat) = 0 ∧ error < 10) ↔ (0 : Nat) = 0)
      ∧ control_height_offset 0 1000 1500 = some (if (0 : Nat) = 0 then 0 else 50)
      ∧ control_yaw_offset 0 1000 1500 = some (if (0 : Nat) = 0 then 0 else 40) :=
  parked_error_test_redundant 0 1000 1500 (by decide) (by decide) (by decide)

theorem calc_proportional_gain_table :
    ∀ k : Fin 2001,
      calc_proportional_gain ((k.val : Int) - 1000) = Int.tdiv ((k.val : Int) - 1000) 10
      ∧ -100 ≤ calc_proportional_gain ((k.val : Int) - 1000)
      ∧ calc_proportional_gain ((k.val : Int) - 1000) ≤ 100 := by
  decide!

theorem calc_proportional_gain_exact (e : Int) (h : -1000 ≤ e ∧ e ≤ 1000) :
    calc_proportional_gain e = Int.tdiv e 10
    ∧ -100 ≤ calc_proportional_gain e
    ∧ calc_proportional_gain e ≤ 100 := by
  have hk := calc_proportional_gain_table ⟨(e + 1000).toNat, by omega⟩
  have he : (((e + 1000).toNat : Nat) : Int) - 1000 = e := by omega
  simp only [he] at hk
  exact hk

/-- C23: the height proportional term is 0.1 times the error converted to an
integer by truncation toward zero: for every error `e` with `|e| <= 1000`,
`calc_proportional_gain e` is `e / 10` rounded toward zero (9 gives 0, -9 gives
0, 250 gives 25), and this integer is what `height_pwm += ...` adds to the base
offset (0 or 50). -/
theorem calc_proportional_gain_truncates (e : Int) (h : -1000 ≤ e ∧ e ≤ 1000) :
    calc_proportional_gain e = Int.tdiv e 10
    ∧ calc_proportional_gain 9 = 0
    ∧ calc_proportional_gain (-9) = 0
    ∧ calc_proportional_gain 250 = 25
    ∧ height_pwm_raw 50 (calc_proportional_gain e) 0 0 = 50 + Int.tdiv e 10
    ∧ height_pwm_raw 0 (calc_proportional_gain e) 0 0 = 0 + Int.tdiv e 10 := by
  obtain ⟨h1, h2, h3⟩ := calc_proportional_gain_exact e h
  refine ⟨h1, by decide, by decide, by decide, ?_, ?_⟩
  · rw [← h1]
    unfold height_pwm_raw wrap_i32
    omega
  · rw [← h1]
    unfold height_pwm_raw wrap_i32
    omega

/-- Witness for C23: error -1000, the most negative error of the range. -/
theorem calc_proportional_gain_truncates_witness :
    calc_proportional_gain (-1000) = Int.tdiv (-1000) 10
    ∧ height_pwm_raw 50 (calc_proportional_gain (-1000)) 0 0 = 50 + Int.tdiv (-1000) 10 :=
  have h := calc_proportional_gain_truncates (-1000) (by decide)
  ⟨h.1, h.2.2.2.2.1⟩

theorem bit_length_aux_le (fuel : Nat) :
    ∀ n k : Nat, n < 2 ^ k → bit_length_aux fuel n ≤ k := by
  induction fuel with
  | zero =>
    intro n k _
    simp [bit_length_aux]
  | succ f ih =>
    intro n k h
    simp only [bit_length_aux]
    split_ifs with h0
    · omega
    · cases k with
      | zero =>
        simp at h
        exact absurd h h0
      | succ j =>
        have hj : n / 2 < 2 ^ j := by
          rw [pow_succ] at h
          omega
        have := ih (n / 2) j hj
        omega

theorem f64_round_bounds (n M : Nat) (hn : n < 2 ^ 85) (hM : 2 ^ 32 ∣ M) (hMn : M ≤ n) :
    M ≤ f64_round n ∧ f64_round n ≤ n + 2147483648 := by
  have hlen : bit_length n ≤ 85 := bit_length_aux_le n n 85 hn
  have hsh : bit_length n - 53 ≤ 32 := by omega
  obtain ⟨j, hj⟩ : ∃ j, bit_length n - 53 = j := ⟨_, rfl⟩
  have hP : 2 ^ j ∣ 2 ^ 32 := pow_dvd_pow 2 (by omega)
  have hPle : 2 ^ j ≤ 2 ^ 32 := Nat.pow_le_pow_right (by decide) (by omega)
  have hPpos : 0 < 2 ^ j := Nat.pow_pos (by decide)
  obtain ⟨c, hc⟩ := dvd_trans hP hM
  have hdm := Nat.div_add_mod n (2 ^ j)
  have hmod := Nat.mod_lt n hPpos
  have hcq : c ≤ n / 2 ^ j := by
    rw [Nat.le_div_iff_mul_le hPpos]
    rw [hc, Nat.mul_comm] at hMn
    exact hMn
  have hcq2 : 2 ^ j * c ≤ 2 ^ j * (n / 2 ^ j) := Nat.mul_le_mul_left _ hcq
  unfold f64_round
  simp only [hj]
  have h32 : (2 : Nat) ^ 32 = 4294967296 := by norm_num
  split_ifs with hup
  · rw [Nat.add_mul, Nat.one_mul, Nat.mul_comm]
    constructor
    · omega
    · rcases hup with h1 | ⟨h1, _⟩ <;> omega
  · rw [Nat.mul_comm]
    constructor
    · omega
    · omega

theorem scale_time_step_eq (D : Nat) (hD : D < 4294967296) :
    scale_time_step D = D / 80000 := by
  have hn : D * TIME_PER_TICK_scaled < 2 ^ 85 := by
    unfold TIME_PER_TICK_scaled
    norm_num
    omega
  have hM : 2 ^ 32 ∣ (D / 80000) * 2 ^ 69 :=
    Dvd.dvd.mul_left (pow_dvd_pow 2 (by decide)) _
  have hMn : (D / 80000) * 2 ^ 69 ≤ D * TIME_PER_TICK_scaled := by
    unfold TIME_PER_TICK_scaled
    norm_num
    omega
  obtain ⟨hlo, hhi⟩ := f64_round_bounds _ _ hn hM hMn
  unfold scale_time_step
  unfold TIME_PER_TICK_scaled at hlo hhi ⊢
  norm_num at hlo hhi ⊢
  omega

/-- C24: the time step of the control loop is `floor(D * 12.5e-6)`, which equals
`floor(D / 80000)` for every elapsed tick count `D = (last_time - current_time)
mod 2^32`; so whenever `D < 80000` the time step is 0 and the division
`(last_error - error) / time_step` of `calc_derivative_gain` and of
`calc_derivative_gain_yaw` has a zero divisor (the model returns `none`), even
though both derivative gains are 0. E.g. `last_time = 1000000000` and a reading
of 999920001 give `D = 79999`. -/
theorem time_step_zero_divisor (last_time current_time : Nat) (last_error error : Int)
    (hl : last_time < 4294967296) (hc : current_time < 4294967296) :
    (elapsed_ticks last_time current_time : Int)
      = ((last_time : Int) - (current_time : Int)) % 4294967296
    ∧ (control_timer last_time current_time).1 = elapsed_ticks last_time current_time / 80000
    ∧ (elapsed_ticks last_time current_time < 80000 →
        (control_timer last_time current_time).1 = 0
        ∧ calc_derivative_gain last_error error (control_timer last_time current_time).1 = none
        ∧ calc_derivative_gain_yaw last_error error (control_timer last_time current_time).1
            = none)
    ∧ elapsed_ticks 1000000000 999920001 = 79999
    ∧ DERIVATIVE_GAIN = 0
    ∧ DERIVATIVE_GAIN_YAW = 0 := by
  have hD : elapsed_ticks last_time current_time < 4294967296 := by
    unfold elapsed_ticks
    omega
  have hstep : (control_timer last_time current_time).1
      = elapsed_ticks last_time current_time / 80000 := by
    simp only [control_timer]
    exact scale_time_step_eq _ hD
  refine ⟨?_, hstep, ?_, by decide, rfl, rfl⟩
  · unfold elapsed_ticks
    omega
  · intro hsmall
    have hzero : (control_timer last_time current_time).1 = 0 := by
      rw [hstep]
      omega
    rw [hzero]
    exact ⟨rfl, rfl, rfl⟩

/-- Witness for C24: `last_time = 1000000000` and a reading taken 79999 ticks
later. -/
theorem time_step_zero_divisor_witness :
    (control_timer 1000000000 999920001).1 = 0
    ∧ calc_derivative_gain 0 5 (control_timer 1000000000 999920001).1 = none
    ∧ calc_derivative_gain_yaw 0 5 (control_timer 1000000000 999920001).1 = none :=
  (time_step_zero_divisor 1000000000 999920001 0 5 (by decide) (by decide)).2.2.1 (by decide)

theorem f64_round_zero : f64_round 0 = 0 := by decide!

theorem calc_derivative_gain_defined (last_error error : Int) (time_step : Nat)
    (h : time_step ≠ 0) :
    calc_derivative_gain last_error error time_step = some (error, 0)
    ∧ calc_derivative_gain_yaw last_error error time_step = some (error, 0) := by
  unfold calc_derivative_gain calc_derivative_gain_yaw
  simp [h, DERIVATIVE_GAIN, DERIVATIVE_GAIN_YAW, wrap_i32]

theorem calc_proportional_gain_nonpos (e : Int) (h : -4095 ≤ e ∧ e ≤ 0) :
    -410 ≤ calc_proportional_gain e ∧ calc_proportional_gain e ≤ 0 := by
  have hn : e.natAbs * PROPORTIONAL_GAIN_scaled < 2 ^ 85 := by
    unfold PROPORTIONAL_GAIN_scaled
    norm_num
    omega
  obtain ⟨-, hhi⟩ := f64_round_bounds _ 0 hn (dvd_zero _) (Nat.zero_le _)
  unfold calc_proportional_gain
  simp only
  unfold PROPORTIONAL_GAIN_scaled at hhi ⊢
  split_ifs with hneg
  · norm_num at hhi ⊢
    omega
  · have he : e = 0 := by omega
    subst he
    simp [f64_round_zero]

theorem calc_intergral_gain_nonpos (A e : Int) (dt : Nat)
    (h : -2147483648 ≤ (calc_intergral_gain A e dt).1 ∧ (calc_intergral_gain A e dt).1 ≤ 0) :
    -21475 ≤ (calc_intergral_gain A e dt).2 ∧ (calc_intergral_gain A e dt).2 ≤ 0 := by
  have hsnd : (calc_intergral_gain A e dt).2
      = (if (calc_intergral_gain A e dt).1 < 0 then
          -((f64_round ((calc_intergral_gain A e dt).1.natAbs * INTERGRAL_GAIN_scaled) / 2 ^ 69
              : Nat) : Int)
         else ((f64_round ((calc_intergral_gain A e dt).1.natAbs * INTERGRAL_GAIN_scaled)
              / 2 ^ 69 : Nat) : Int)) := by
    simp only [calc_intergral_gain]
  rw [hsnd]
  generalize (calc_intergral_gain A e dt).1 = t at h ⊢
  have hn : t.natAbs * INTERGRAL_GAIN_scaled < 2 ^ 85 := by
    unfold INTERGRAL_GAIN_scaled
    norm_num
    omega
  obtain ⟨-, hhi⟩ := f64_round_bounds _ 0 hn (dvd_zero _) (Nat.zero_le _)
  unfold INTERGRAL_GAIN_scaled at hhi ⊢
  split_ifs with hneg
  · norm_num at hhi ⊢
    omega
  · have ht : t = 0 := by omega
    subst ht
    simp [f64_round_zero]

theorem nonpositive_terms_give_zero_duty (p i : Int) (hp : -410 ≤ p ∧ p ≤ 0)
    (hi : -21475 ≤ i ∧ i ≤ 0) : height_pwm_published 0 p 0 i = 0 := by
  unfold height_pwm_published height_pwm_raw
  rw [wrap_i32_of_range (0 + p) (by omega), wrap_i32_of_range (0 + p + 0) (by omega),
    wrap_i32_of_range (0 + p + 0 + i) (by omega)]
  unfold check_valid_pwm
  split_ifs <;> omega

/-- C26: parked rig gets zero main-rotor duty. For every control cycle with
target height index 0, measured height and ground in [0, 4095], a nonzero time
step and a height integral accumulator that is at most 0 at the start of the
cycle (the new accumulator not overflowing 32 bits), the value published on
`Q_mainDuty` is 0. -/
theorem parked_rig_zero_duty (pid : HeightPID) (curr_Meas_height ground_ADC time_step : Nat)
    (hm : curr_Meas_height ≤ 4095) (hg : ground_ADC ≤ 4095)
    (hts : time_step ≠ 0)
    (hA : pid.total_intergral ≤ 0)
    (hno : -2147483648 ≤ pid.total_intergral
      - (convert_to_height curr_Meas_height ground_ADC : Int) * (time_step : Int)) :
    ∃ pid2, control_height_cycle pid 0 curr_Meas_height ground_ADC time_step
      = some (pid2, 0) := by
  have herr := height_error_eq 0 curr_Meas_height ground_ADC (by decide) (by omega) (by omega)
  have hconv := convert_to_height_eq curr_Meas_height ground_ADC (by omega) (by omega)
  have hle : convert_to_height curr_Meas_height ground_ADC ≤ 4095 := by
    rw [hconv]
    split_ifs <;> omega
  generalize convert_to_height curr_Meas_height ground_ADC = hgt at herr hle hno
  have hval : wrap_i32 ((100 * (0 : Nat) : Int) - (hgt : Int)) = -(hgt : Int) := by
    rw [wrap_i32_of_range _ (by omega)]
    omega
  rw [hval] at herr
  have hX : (0 : Int) ≤ (hgt : Int) * (time_step : Int) :=
    mul_nonneg (Int.ofNat_nonneg _) (Int.ofNat_nonneg _)
  have htot := calc_intergral_gain_total pid.total_intergral (-(hgt : Int)) time_step
  have hmul : -(hgt : Int) * (time_step : Int) = -((hgt : Int) * (time_step : Int)) :=
    neg_mul _ _
  rw [hmul] at htot
  have htot_range : -2147483648 ≤ (calc_intergral_gain pid.total_intergral (-(hgt : Int)) time_step).1
      ∧ (calc_intergral_gain pid.total_intergral (-(hgt : Int)) time_step).1 ≤ 0 := by
    rw [htot]
    generalize (hgt : Int) * (time_step : Int) = X at hX hno
    split_ifs
    · rw [wrap_i32_of_range _ (by omega)]
      omega
    · rw [wrap_i32_of_range _ (by omega)]
      omega
  obtain ⟨hi1, hi2⟩ := calc_intergral_gain_nonpos _ _ _ htot_range
  obtain ⟨hp1, hp2⟩ := calc_proportional_gain_nonpos (-(hgt : Int)) (by omega)
  have hd := (calc_derivative_gain_defined pid.last_error (-(hgt : Int)) time_step hts).1
  have hoff : height_offset 0 (-(hgt : Int)) = 0 := by
    unfold height_offset
    rw [if_pos ⟨rfl, by omega⟩]
  have hduty := nonpositive_terms_give_zero_duty _ _ ⟨hp1, hp2⟩ ⟨hi1, hi2⟩
  refine ⟨{ last_error := -(hgt : Int),
             total_intergral :=
               (calc_intergral_gain pid.total_intergral (-(hgt : Int)) time_step).1 }, ?_⟩
  unfold control_height_cycle
  rw [herr]
  simp only [hd, hoff, hduty]

/-- Witness for C26: a parked cycle 500 units above ground with accumulator
-1000 and time step 3. -/
theorem parked_rig_zero_duty_witness :
    ∃ pid2, control_height_cycle { last_error := 7, total_intergral := -1000 } 0 1000 1500 3
      = some (pid2, 0) :=
  parked_rig_zero_duty { last_error := 7, total_intergral := -1000 } 1000 1500 3
    (by decide) (by decide) (by decide) (by decide) (by decide)

end ENCE464
